import Mathlib

/-!
Verification of the rdrscrape crawler core against its specification.

The definitions below are a shallow embedding of the Rust sources:
`src/scraper/mod.rs` (site resolution, title-suffix stripping, options),
`src/scraper/client.rs` (retrying client), `src/scraper/royalroad.rs` and
`src/scraper/scribblehub.rs` (TOC discovery, chapter parsing, crawl loops),
`src/scraper/error.rs` (error taxonomy) and `src/model.rs` (Book/Chapter).
Network I/O and HTML/DOM selection are abstracted as oracle parameters
(a fetch function, pre-parsed page fields); everything downstream of those
oracles follows the source line by line.
-/

/-- Error taxonomy, from `src/scraper/error.rs` (`ScraperError`).  Error
sources carried inside `reqwest::Error` are elided.  The `cancelled` variant
is referenced by `scribblehub.rs` but not declared under `src/`; it is
modelled from the spec (section 5, cooperative cancellation). -/
inductive ScrapeErr where
  | invalidUrl (input reason : String)
  | unrecognizedHost (host : String)
  | network (url : String)
  | httpStatus (status : Nat) (url : String) (context : Option String)
  | bodyRead
  | parseStoryPage (message : String)
  | parseChapter (index : Nat) (url : String)
  | emptyChapter (index : Nat) (url : String)
  | chapterListParse (reason : String)
  | emptyChapterList
  | noChaptersRetrieved
  | lockedChaptersNotAllowed (count : Nat)
  | cancelled
deriving DecidableEq, Repr

/-- One chapter, from `src/model.rs` (`Chapter`). -/
structure Chapter where
  title : String
  index : Nat
  body : String
deriving DecidableEq, Repr

/-- Canonical book, from `src/model.rs` (`Book`). -/
structure Book where
  title : String
  author : String
  description : Option String
  cover_url : Option String
  chapters : List Chapter
  source_url : Option String
deriving DecidableEq, Repr

/-- Metadata extracted from an index page by `parse_metadata`
(title, author, optional description, optional cover URL). -/
structure Meta where
  title : String
  author : String
  description : Option String
  cover_url : Option String
deriving DecidableEq, Repr

/-- Royal Road TOC entry, the `(index, full_url, title, is_unlocked)` tuple
produced by `parse_toc_with_locked` in `src/scraper/royalroad.rs`. -/
structure TocEntry where
  index : Nat
  url : String
  title : String
  unlocked : Bool
deriving DecidableEq, Repr

/-- Scribble Hub TOC entry, the `(order, full_url, title)` tuple produced by
`parse_toc_page` in `src/scraper/scribblehub.rs`; `scrape_book` uses the
order value as the chapter index. -/
structure ShEntry where
  index : Nat
  url : String
  title : String
deriving DecidableEq, Repr

/-- Locked-chapter policy, from `src/scraper/mod.rs` (`LockedChapterBehavior`). -/
inductive LockedChapterBehavior where
  | Skip
  | Placeholder
  | Fail
deriving DecidableEq, Repr

/-- Empty-chapter policy, from `src/scraper/mod.rs` (`EmptyChapterBehavior`). -/
inductive EmptyChapterBehavior where
  | Skip
  | Placeholder
  | Fail
deriving DecidableEq, Repr

/-- Supported site, from `src/scraper/mod.rs` (`Site`). -/
inductive Site where
  | RoyalRoad
  | ScribbleHub
deriving DecidableEq, Repr

/-- The ordering used by `book.chapters.sort_by_key(|c| c.index)`. -/
def chapterLE (a b : Chapter) : Prop := a.index ≤ b.index

instance : DecidableRel chapterLE := fun a b => Nat.decLe a.index b.index

/-- The stable sort `sort_by_key(|c| c.index)` applied after every append
(Rust's `sort_by_key` is stable; so is insertion sort, and any two stable
sorts by the same key agree). -/
def sortByIndex (l : List Chapter) : List Chapter := List.insertionSort chapterLE l

/-- Push a chapter then re-sort, the `book.chapters.push(...)` followed by
`book.chapters.sort_by_key(|c| c.index)` step of both crawl loops. -/
def pushSort (b : Book) (c : Chapter) : Book :=
  { b with chapters := sortByIndex (b.chapters ++ [c]) }

/-- Code points with the Unicode `White_Space` property, the set trimmed by
Rust's `str::trim` used in `strip_title_site_suffix`. -/
def rustIsWhitespace (c : Char) : Bool :=
  [0x09, 0x0A, 0x0B, 0x0C, 0x0D, 0x20, 0x85, 0xA0, 0x1680,
   0x2000, 0x2001, 0x2002, 0x2003, 0x2004, 0x2005, 0x2006, 0x2007,
   0x2008, 0x2009, 0x200A, 0x2028, 0x2029, 0x202F, 0x205F, 0x3000].contains c.toNat

/-- Rust `str::trim`: drop whitespace from both ends. -/
def trimChars (s : List Char) : List Char :=
  ((s.dropWhile rustIsWhitespace).reverse.dropWhile rustIsWhitespace).reverse

/-- Title-suffix stripping from `src/scraper/mod.rs`
(`strip_title_site_suffix`): trim, then strip the first suffix in the list
that the trimmed title ends with (at most one, anchored to the end), then
trim again.  `find?` is the source's first-match loop with `break`. -/
def strip_title_site_suffix (s : List Char) (suffixes : List (List Char)) : List Char :=
  match suffixes.find? (fun sfx => decide (sfx <:+ trimChars s)) with
  | some sfx => trimChars ((trimChars s).take ((trimChars s).length - sfx.length))
  | none => trimChars s

/-- String-level wrapper for `strip_title_site_suffix` used by the chapter
page parsers. -/
def stripTitleSuffixS (s : String) (suffixes : List String) : String :=
  (strip_title_site_suffix s.toList (suffixes.map String.toList)).asString

/-- String-level Rust `str::trim`. -/
def trimS (s : String) : String := (trimChars s.toList).asString

/-- Rust `str::contains(needle)` (byte substring search; on valid UTF-8 this
coincides with character-level infix search). -/
def strContains (haystack needle : String) : Bool :=
  decide (needle.toList <:+: haystack.toList)

instance {ε α : Type} [DecidableEq ε] [DecidableEq α] : DecidableEq (Except ε α) :=
  fun a b =>
    match a, b with
    | .ok x, .ok y => decidable_of_iff (x = y) (by simp)
    | .error x, .error y => decidable_of_iff (x = y) (by simp)
    | .ok _, .error _ => isFalse (by simp)
    | .error _, .ok _ => isFalse (by simp)

/-- Outcome of `reqwest::Url::parse` plus `host_str()` on the input URL,
abstracting the URL parser of `resolve_site`. -/
inductive UrlHost where
  | parseFail (reason : String)
  | noHost
  | host (h : String)
deriving DecidableEq, Repr

/-- Site resolution from `src/scraper/mod.rs` (`resolve_site`): the override
wins unconditionally; else a parse failure or missing host is an invalid-URL
error; else the host is matched by `contains` against each site's domain. -/
def resolve_site (url_input : String) (parsed : UrlHost) (override_site : Option Site) :
    Except ScrapeErr Site :=
  match override_site with
  | some site => .ok site
  | none =>
    match parsed with
    | .parseFail reason => .error (.invalidUrl url_input reason)
    | .noHost => .error (.invalidUrl url_input "URL has no host")
    | .host h =>
      if strContains h "royalroad.com" then .ok .RoyalRoad
      else if strContains h "scribblehub.com" then .ok .ScribbleHub
      else .error (.unrecognizedHost h)

/-- C8: title-suffix stripping removes at most one known suffix, only when it
occurs at the very end of the (trimmed) title; everything before that one
trailing suffix — including interior occurrences of the suffix text or its
separator characters — is preserved verbatim (up to the final whitespace
trim).  Concretely, stripping " - Site Name" from
"Chapter 1 - Smart decisions - Site Name" yields
"Chapter 1 - Smart decisions". -/
theorem c8_strip_title_suffix :
    (∀ (s : List Char) (suffixes : List (List Char)),
        (∀ sfx ∈ suffixes, ¬ sfx <:+ trimChars s) →
        strip_title_site_suffix s suffixes = trimChars s)
    ∧ (∀ (s : List Char) (suffixes : List (List Char)) (sfx : List Char),
        suffixes.find? (fun x => decide (x <:+ trimChars s)) = some sfx →
        ∃ pre, trimChars s = pre ++ sfx ∧
          strip_title_site_suffix s suffixes = trimChars pre ∧ sfx ∈ suffixes)
    ∧ strip_title_site_suffix "Chapter 1 - Smart decisions - Site Name".toList
        [" - Site Name".toList] = "Chapter 1 - Smart decisions".toList := by
  refine ⟨?_, ?_, by decide⟩
  · intro s suffixes hnone
    unfold strip_title_site_suffix
    have : suffixes.find? (fun sfx => decide (sfx <:+ trimChars s)) = none := by
      rw [List.find?_eq_none]
      intro x hx
      simpa using hnone x hx
    simp [this]
  · intro s suffixes sfx hfind
    have hsfx : sfx <:+ trimChars s := by
      have := List.find?_some hfind
      simpa using this
    have hmem : sfx ∈ suffixes := List.mem_of_find?_eq_some hfind
    obtain ⟨pre, hpre⟩ := hsfx
    refine ⟨pre, hpre.symm, ?_, hmem⟩
    have hstep : strip_title_site_suffix s suffixes
        = trimChars ((trimChars s).take ((trimChars s).length - sfx.length)) := by
      unfold strip_title_site_suffix
      rw [hfind]
    have hlen : (pre ++ sfx).length - sfx.length = pre.length := by
      simp
    rw [hstep, ← hpre, hlen, List.take_left]


/-- Witness for C8 at a concrete input: no suffix in the list matches, so the
result is just the trimmed title. -/
theorem c8_strip_title_suffix_witness :
    strip_title_site_suffix "abc".toList ["xyz".toList] = trimChars "abc".toList :=
  c8_strip_title_suffix.1 "abc".toList ["xyz".toList] (by decide)

/-- C10: site resolution matches hosts by substring containment, not exact
domain equality: any host containing "royalroad.com" resolves to Royal Road
(checked first), any host containing "scribblehub.com" resolves to a site
(Scribble Hub when "royalroad.com" does not also occur) rather than an
unrecognized-host error; in particular host "royalroad.com.evil.example"
resolves to Royal Road. -/
theorem c10_resolve_site_substring :
    (∀ (h url : String), strContains h "royalroad.com" = true →
        resolve_site url (.host h) none = .ok .RoyalRoad)
    ∧ (∀ (h url : String), strContains h "scribblehub.com" = true →
        strContains h "royalroad.com" = false →
        resolve_site url (.host h) none = .ok .ScribbleHub)
    ∧ (∀ (h url : String), strContains h "scribblehub.com" = true →
        ∃ s, resolve_site url (.host h) none = .ok s)
    ∧ resolve_site "https://royalroad.com.evil.example/x"
        (.host "royalroad.com.evil.example") none = .ok .RoyalRoad := by
  refine ⟨?_, ?_, ?_, by decide⟩
  · intro h url hc
    simp [resolve_site, hc]
  · intro h url hc hnr
    simp [resolve_site, hc, hnr]
  · intro h url hc
    by_cases hr : strContains h "royalroad.com" = true
    · exact ⟨.RoyalRoad, by simp [resolve_site, hr]⟩
    · exact ⟨.ScribbleHub, by simp [resolve_site, hc, hr]⟩

/-- Witness for C10 at a concrete input. -/
theorem c10_resolve_site_substring_witness :
    resolve_site "https://x/" (.host "www.royalroad.com") none = .ok .RoyalRoad :=
  c10_resolve_site_substring.1 "www.royalroad.com" "https://x/" (by decide)

/-- Ordering on Scribble Hub TOC entries by declared order value, the key of
`all_entries.sort_by_key(|(order, _, _)| *order)`. -/
def shLE (a b : ShEntry) : Prop := a.index ≤ b.index

instance : DecidableRel shLE := fun a b => Nat.decLe a.index b.index

instance : IsTotal ShEntry shLE := ⟨fun a b => Nat.le_total a.index b.index⟩

instance : IsTrans ShEntry shLE := ⟨fun _ _ _ => Nat.le_trans⟩

/-- The stable `sort_by_key` over declared order in `merge_toc_entries`. -/
def sortShEntries (l : List ShEntry) : List ShEntry := List.insertionSort shLE l

/-- The `retain(|(_, url, _)| seen.insert(url.clone()))` pass of
`merge_toc_entries`: keep an entry iff its URL was not seen yet. -/
def dedupByUrl : List ShEntry → List String → List ShEntry
  | [], _ => []
  | e :: rest, seen =>
    if e.url ∈ seen then dedupByUrl rest seen
    else e :: dedupByUrl rest (e.url :: seen)

/-- TOC-page merge from `src/scraper/scribblehub.rs` (`merge_toc_entries`):
sort by declared order, then deduplicate by URL keeping the first
occurrence. -/
def merge_toc_entries (entries : List ShEntry) : List ShEntry :=
  dedupByUrl (sortShEntries entries) []

theorem dedupByUrl_sublist (l : List ShEntry) (seen : List String) :
    List.Sublist (dedupByUrl l seen) l := by
  induction l generalizing seen with
  | nil => simp [dedupByUrl]
  | cons x rest ih =>
    unfold dedupByUrl
    by_cases hx : x.url ∈ seen
    · simp only [hx, if_pos]
      exact (ih seen).cons x
    · simp only [hx, if_neg, not_false_iff]
      exact (ih (x.url :: seen)).cons₂ x

theorem mem_url_dedupByUrl (l : List ShEntry) (seen : List String) (u : String) :
    u ∈ (dedupByUrl l seen).map ShEntry.url
      ↔ u ∈ l.map ShEntry.url ∧ u ∉ seen := by
  induction l generalizing seen with
  | nil => simp [dedupByUrl]
  | cons x rest ih =>
    unfold dedupByUrl
    by_cases hx : x.url ∈ seen
    · simp only [hx, if_pos, List.map_cons, List.mem_cons]
      rw [ih]
      constructor
      · rintro ⟨hu, hns⟩
        exact ⟨Or.inr hu, hns⟩
      · rintro ⟨hu | hu, hns⟩
        · exact absurd (hu ▸ hx) hns
        · exact ⟨hu, hns⟩
    · simp only [hx, if_neg, not_false_iff, List.map_cons, List.mem_cons]
      rw [ih]
      constructor
      · rintro (rfl | ⟨hu, hns⟩)
        · exact ⟨Or.inl rfl, hx⟩
        · refine ⟨Or.inr hu, fun hs => hns (List.mem_cons_of_mem _ hs)⟩
      · rintro ⟨rfl | hu, hns⟩
        · exact Or.inl rfl
        · by_cases hux : u = x.url
          · exact Or.inl hux
          · exact Or.inr ⟨hu, by simp [hux, hns]⟩

theorem nodup_url_dedupByUrl (l : List ShEntry) (seen : List String) :
    ((dedupByUrl l seen).map ShEntry.url).Nodup := by
  induction l generalizing seen with
  | nil => simp [dedupByUrl]
  | cons x rest ih =>
    unfold dedupByUrl
    by_cases hx : x.url ∈ seen
    · simpa [hx] using ih seen
    · simp only [hx, if_neg, not_false_iff, List.map_cons, List.nodup_cons]
      refine ⟨fun hmem => ?_, ih (x.url :: seen)⟩
      have := (mem_url_dedupByUrl rest (x.url :: seen) x.url).mp hmem
      exact this.2 (List.mem_cons_self _ _)

theorem dedupByUrl_find? (l : List ShEntry) (seen : List String) (e : ShEntry)
    (hmem : e ∈ dedupByUrl l seen) :
    e.url ∉ seen ∧ l.find? (fun x => x.url == e.url) = some e := by
  induction l generalizing seen with
  | nil => simp [dedupByUrl] at hmem
  | cons x rest ih =>
    unfold dedupByUrl at hmem
    by_cases hx : x.url ∈ seen
    · simp only [hx, if_pos] at hmem
      obtain ⟨hns, hf⟩ := ih seen hmem
      have hne : (x.url == e.url) = false := by
        simp only [beq_eq_false_iff_ne, ne_eq]
        intro hcontra
        exact hns (hcontra ▸ hx)
      refine ⟨hns, ?_⟩
      rw [List.find?_cons]
      simp [hne, hf]
    · simp only [hx, if_neg, not_false_iff, List.mem_cons] at hmem
      rcases hmem with rfl | hmem
      · refine ⟨hx, ?_⟩
        rw [List.find?_cons]
        simp
      · obtain ⟨hns, hf⟩ := ih (x.url :: seen) hmem
        have hne : (x.url == e.url) = false := by
          simp only [beq_eq_false_iff_ne, ne_eq]
          intro hcontra
          exact hns (by simp [hcontra])
        refine ⟨fun hs => hns (List.mem_cons_of_mem _ hs), ?_⟩
        rw [List.find?_cons]
        simp [hne, hf]

/-- C7: `merge_toc_entries` returns the entries sorted ascending by declared
order, with every duplicate URL collapsed to one entry — the kept entry is
the first occurrence (the first entry with that URL in the stably sorted
list); every URL of the input survives exactly once (Nodup plus the
membership equivalence), so a chapter URL re-listed by two adjacent pages
appears exactly once. -/
theorem c7_merge_toc_entries :
    ∀ entries : List ShEntry,
      (merge_toc_entries entries).Sorted shLE
      ∧ ((merge_toc_entries entries).map ShEntry.url).Nodup
      ∧ (∀ u, u ∈ (merge_toc_entries entries).map ShEntry.url
            ↔ u ∈ entries.map ShEntry.url)
      ∧ (∀ e ∈ merge_toc_entries entries,
            (sortShEntries entries).find? (fun x => x.url == e.url) = some e) := by
  intro entries
  refine ⟨?_, nodup_url_dedupByUrl _ _, ?_, ?_⟩
  · have hsorted : (sortShEntries entries).Sorted shLE :=
      List.sorted_insertionSort shLE entries
    exact List.Pairwise.sublist (dedupByUrl_sublist _ _) hsorted
  · intro u
    unfold merge_toc_entries
    rw [mem_url_dedupByUrl]
    have hperm : List.Perm ((sortShEntries entries).map ShEntry.url)
        (entries.map ShEntry.url) :=
      (List.perm_insertionSort shLE entries).map ShEntry.url
    simp [hperm.mem_iff]
  · intro e hmem
    exact (dedupByUrl_find? _ _ _ hmem).2

/-- Witness for C7 at a concrete input: two pages re-list the URL "u2"; the
merged list keeps the first sorted occurrence only. -/
theorem c7_merge_toc_entries_witness :
    (sortShEntries [⟨2, "u2", "b"⟩, ⟨1, "u1", "a"⟩, ⟨2, "u2", "dup"⟩]).find?
        (fun x => x.url == "u2") = some ⟨2, "u2", "b"⟩ :=
  (c7_merge_toc_entries [⟨2, "u2", "b"⟩, ⟨1, "u1", "a"⟩, ⟨2, "u2", "dup"⟩]).2.2.2
    ⟨2, "u2", "b"⟩ (by decide)

/-- Scan loop of `extract_json_array_with_strings` in
`src/scraper/royalroad.rs`: walk the characters from the first bracket,
tracking bracket depth outside JSON string literals, string state and
backslash escapes inside them; return the position of the bracket that
brings the depth back to zero. -/
def scanArray : List Char → Int → Bool → Bool → Nat → Option Nat
  | [], _, _, _, _ => none
  | c :: rest, depth, inString, escape, pos =>
    if inString then
      if escape then scanArray rest depth true false (pos + 1)
      else if c = '\\' then scanArray rest depth true true (pos + 1)
      else if c = '"' then scanArray rest depth false false (pos + 1)
      else scanArray rest depth true false (pos + 1)
    else
      if c = '[' then scanArray rest (depth + 1) false false (pos + 1)
      else if c = ']' then
        if depth - 1 = 0 then some pos
        else scanArray rest (depth - 1) false false (pos + 1)
      else if c = '"' then scanArray rest depth true false (pos + 1)
      else scanArray rest depth false false (pos + 1)

/-- `extract_json_array_with_strings` from `src/scraper/royalroad.rs`: find
the first bracket, then return the slice from it through the matching
closing bracket found by `scanArray` (positions counted in characters; the
Rust original counts bytes, which delimits the same slice). -/
def extract_json_array_with_strings (s : List Char) : Option (List Char) :=
  match s.findIdx? (fun c => c == '[') with
  | none => none
  | some start =>
    match scanArray (s.drop start) 0 false false 0 with
    | none => none
    | some e => some ((s.drop start).take (e + 1))

/-- One character of a JSON string literal: either a plain character (not a
quote, not a backslash) or a backslash escape sequence. -/
inductive JSChar where
  | plain (c : Char) (hq : c ≠ '"') (hb : c ≠ '\\')
  | esc (c : Char)

/-- Serialize one JSON-string character. -/
def serializeJSChar : JSChar → List Char
  | .plain c _ _ => [c]
  | .esc c => ['\\', c]

/-- Serialize the contents of a JSON string literal. -/
def serializeJStr : List JSChar → List Char
  | [] => []
  | c :: cs => serializeJSChar c ++ serializeJStr cs

/-- Token of a well-formed JSON value as seen by the bracket scanner: a
string literal (which may freely contain brackets), any other single
character that is not a bracket or quote (digits, commas, braces, colons,
whitespace), or a bracketed group.  Every well-formed JSON array tokenizes
into a `jarr` of these. -/
inductive JTok where
  | jstr (cs : List JSChar)
  | jraw (c : Char) (ho : c ≠ '[') (hc : c ≠ ']') (hq : c ≠ '"')
  | jarr (ts : List JTok)

mutual

/-- Serialize one token. -/
def serializeJTok : JTok → List Char
  | .jstr cs => '"' :: (serializeJStr cs ++ ['"'])
  | .jraw c _ _ _ => [c]
  | .jarr ts => '[' :: (serializeJToks ts ++ [']'])

/-- Serialize a token sequence. -/
def serializeJToks : List JTok → List Char
  | [] => []
  | t :: ts => serializeJTok t ++ serializeJToks ts

end

theorem scanArray_step_open (rest : List Char) (d : Int) (pos : Nat) :
    scanArray ('[' :: rest) d false false pos
      = scanArray rest (d + 1) false false (pos + 1) := rfl

theorem scanArray_step_close (rest : List Char) (d : Int) (pos : Nat)
    (h : ¬(d - 1 = 0)) :
    scanArray (']' :: rest) d false false pos
      = scanArray rest (d - 1) false false (pos + 1) := by
  rw [scanArray]
  simp [h]

theorem scanArray_step_close_done (rest : List Char) (d : Int) (pos : Nat)
    (h : d - 1 = 0) :
    scanArray (']' :: rest) d false false pos = some pos := by
  rw [scanArray]
  simp [h]

theorem scanArray_step_quote_open (rest : List Char) (d : Int) (pos : Nat) :
    scanArray ('"' :: rest) d false false pos
      = scanArray rest d true false (pos + 1) := rfl

theorem scanArray_step_quote_close (rest : List Char) (d : Int) (pos : Nat) :
    scanArray ('"' :: rest) d true false pos
      = scanArray rest d false false (pos + 1) := rfl

theorem scanArray_step_backslash (rest : List Char) (d : Int) (pos : Nat) :
    scanArray ('\\' :: rest) d true false pos
      = scanArray rest d true true (pos + 1) := rfl

theorem scanArray_step_escaped (c : Char) (rest : List Char) (d : Int) (pos : Nat) :
    scanArray (c :: rest) d true true pos
      = scanArray rest d true false (pos + 1) := by
  rw [scanArray]
  simp

theorem scanArray_step_instring (c : Char) (rest : List Char) (d : Int) (pos : Nat)
    (hb : c ≠ '\\') (hq : c ≠ '"') :
    scanArray (c :: rest) d true false pos
      = scanArray rest d true false (pos + 1) := by
  rw [scanArray]
  simp [hb, hq]

theorem scanArray_step_other (c : Char) (rest : List Char) (d : Int) (pos : Nat)
    (ho : c ≠ '[') (hc : c ≠ ']') (hq : c ≠ '"') :
    scanArray (c :: rest) d false false pos
      = scanArray rest d false false (pos + 1) := by
  rw [scanArray]
  simp [ho, hc, hq]

theorem scanArray_string (cs : List JSChar) (rest : List Char) (d : Int) (pos : Nat) :
    scanArray (serializeJStr cs ++ rest) d true false pos
      = scanArray rest d true false (pos + (serializeJStr cs).length) := by
  induction cs generalizing pos with
  | nil => simp [serializeJStr]
  | cons c cs ih =>
    cases c with
    | plain ch hq hb =>
      have hlen : (serializeJStr (JSChar.plain ch hq hb :: cs)).length
          = (serializeJStr cs).length + 1 := by
        simp [serializeJStr, serializeJSChar]
      have harith : pos + ((serializeJStr cs).length + 1)
          = (pos + 1) + (serializeJStr cs).length := by omega
      show scanArray (ch :: (serializeJStr cs ++ rest)) d true false pos = _
      rw [scanArray_step_instring ch _ d pos hb hq, ih (pos + 1), hlen, harith]
    | esc ch =>
      have hlen : (serializeJStr (JSChar.esc ch :: cs)).length
          = (serializeJStr cs).length + 2 := by
        simp [serializeJStr, serializeJSChar]
      have harith : pos + ((serializeJStr cs).length + 2)
          = (pos + 1 + 1) + (serializeJStr cs).length := by omega
      show scanArray ('\\' :: (ch :: (serializeJStr cs ++ rest))) d true false pos = _
      rw [scanArray_step_backslash, scanArray_step_escaped, ih (pos + 1 + 1), hlen, harith]

mutual

theorem scanArray_tok (t : JTok) (rest : List Char) (d : Int) (hd : 0 < d) (pos : Nat) :
    scanArray (serializeJTok t ++ rest) d false false pos
      = scanArray rest d false false (pos + (serializeJTok t).length) := by
  cases t with
  | jstr cs =>
    have hlen : (serializeJTok (.jstr cs)).length = (serializeJStr cs).length + 2 := by
      simp [serializeJTok]
    have harith : pos + ((serializeJStr cs).length + 2)
        = ((pos + 1) + (serializeJStr cs).length) + 1 := by omega
    show scanArray ('"' :: ((serializeJStr cs ++ ['"']) ++ rest)) d false false pos = _
    rw [scanArray_step_quote_open, List.append_assoc, List.singleton_append]
    rw [scanArray_string cs ('"' :: rest) d (pos + 1)]
    rw [scanArray_step_quote_close, hlen, harith]
  | jraw c ho hc hq =>
    have hlen : (serializeJTok (.jraw c ho hc hq)).length = 1 := by
      simp [serializeJTok]
    show scanArray (c :: rest) d false false pos = _
    rw [scanArray_step_other c rest d pos ho hc hq, hlen]
  | jarr ts =>
    have hlen : (serializeJTok (.jarr ts)).length = (serializeJToks ts).length + 2 := by
      simp [serializeJTok]
    have harith : pos + ((serializeJToks ts).length + 2)
        = ((pos + 1) + (serializeJToks ts).length) + 1 := by omega
    have hdd : d + 1 - 1 = d := by omega
    have hne : ¬(d + 1 - 1 = 0) := by omega
    show scanArray ('[' :: ((serializeJToks ts ++ [']']) ++ rest)) d false false pos = _
    rw [scanArray_step_open, List.append_assoc, List.singleton_append]
    rw [scanArray_toks ts (']' :: rest) (d + 1) (by omega) (pos + 1)]
    rw [scanArray_step_close _ _ _ hne, hdd, hlen, harith]

theorem scanArray_toks (ts : List JTok) (rest : List Char) (d : Int) (hd : 0 < d)
    (pos : Nat) :
    scanArray (serializeJToks ts ++ rest) d false false pos
      = scanArray rest d false false (pos + (serializeJToks ts).length) := by
  cases ts with
  | nil => simp [serializeJToks]
  | cons t ts =>
    have hlen : (serializeJToks (t :: ts)).length
        = (serializeJTok t).length + (serializeJToks ts).length := by
      simp [serializeJToks]
    have harith : pos + ((serializeJTok t).length + (serializeJToks ts).length)
        = (pos + (serializeJTok t).length) + (serializeJToks ts).length := by omega
    show scanArray ((serializeJTok t ++ serializeJToks ts) ++ rest) d false false pos = _
    rw [List.append_assoc]
    rw [scanArray_tok t (serializeJToks ts ++ rest) d hd pos]
    rw [scanArray_toks ts rest d hd (pos + (serializeJTok t).length)]
    rw [hlen, harith]

end

/-- C6: the inline-script TOC array extractor returns the complete
serialized JSON array — tracking bracket depth while ignoring bracket and
quote characters inside string literals and honouring backslash escapes —
for every well-formed JSON array (every token sequence of the scanner
grammar, which includes titles containing a closing bracket inside a quoted
string) regardless of what follows it; concretely, a bracket inside a
quoted title does not truncate the extraction. -/
theorem c6_extract_json_array :
    (∀ (ts : List JTok) (rest : List Char),
        extract_json_array_with_strings (serializeJTok (.jarr ts) ++ rest)
          = some (serializeJTok (.jarr ts)))
    ∧ extract_json_array_with_strings "[\"A ] B\",\"t\"]tail".toList
        = some "[\"A ] B\",\"t\"]".toList := by
  constructor
  · intro ts rest
    have hshape : serializeJTok (.jarr ts) ++ rest
        = '[' :: ((serializeJToks ts ++ [']']) ++ rest) := by
      simp [serializeJTok]
    have hfind : (('[' : Char) :: ((serializeJToks ts ++ [']']) ++ rest)).findIdx?
        (fun c => c == '[') = some 0 := by
      simp [List.findIdx?_cons]
    have hscan : scanArray (('[' : Char) :: ((serializeJToks ts ++ [']']) ++ rest))
        0 false false 0 = some ((serializeJToks ts).length + 1) := by
      rw [scanArray_step_open, List.append_assoc, List.singleton_append]
      rw [scanArray_toks ts (']' :: rest) (0 + 1) (by omega) (0 + 1)]
      rw [scanArray_step_close_done _ _ _ (by omega)]
      congr 1
      omega
    have htake : (('[' : Char) :: ((serializeJToks ts ++ [']']) ++ rest)).take
        (((serializeJToks ts).length + 1) + 1) = serializeJTok (.jarr ts) := by
      rw [← hshape]
      have hl : ((serializeJToks ts).length + 1) + 1
          = (serializeJTok (.jarr ts)).length := by
        simp [serializeJTok]
      rw [hl, List.take_left]
    rw [hshape]
    unfold extract_json_array_with_strings
    rw [hfind]
    simp only [List.drop_zero]
    rw [hscan]
    exact congrArg some htake
  · decide

/-- Abstraction of `reqwest::Error` as inspected by `get_with_retry`:
only `is_timeout()` / `is_connect()` are consulted; `tag` distinguishes
distinct error values. -/
structure ReqError where
  is_timeout : Bool
  is_connect : Bool
  tag : Nat
deriving DecidableEq, Repr

/-- Outcome of one `self.inner.get(url).send()` call. -/
inductive SendOutcome where
  | ok (status : Nat)
  | err (e : ReqError)
deriving DecidableEq, Repr

/-- Value returned by `get_with_retry`: a response (whose status the caller
checks) or a transport error. -/
inductive RetryResult where
  | resp (status : Nat)
  | err (e : ReqError)
deriving DecidableEq, Repr

/-- `DEFAULT_RETRY_COUNT` from `src/scraper/client.rs`. -/
def DEFAULT_RETRY_COUNT : Nat := 5

/-- `DEFAULT_BACKOFF_SECS` from `src/scraper/client.rs`. -/
def DEFAULT_BACKOFF_SECS : List Nat := [1, 2, 4, 8]

/-- `BACKOFF_429_SECS` from `src/scraper/client.rs`. -/
def BACKOFF_429_SECS : List Nat := [30, 60, 90, 120]

/-- Backoff lookup for HTTP 429:
`BACKOFF_429_SECS.get(attempt).copied().unwrap_or(*BACKOFF_429_SECS.last().unwrap_or(&60))`. -/
def backoff429At (attempt : Nat) : Nat :=
  (BACKOFF_429_SECS[attempt]?).getD (BACKOFF_429_SECS.getLast?.getD 60)

/-- Backoff lookup for other retryable causes:
`self.backoff_secs.get(attempt).copied().unwrap_or_else(|| *self.backoff_secs.last().unwrap_or(&1))`. -/
def backoffAt (backoff_secs : List Nat) (attempt : Nat) : Nat :=
  (backoff_secs[attempt]?).getD (backoff_secs.getLast?.getD 1)

/-- `status.is_server_error() || status.as_u16() == 429` from
`src/scraper/client.rs` (server errors are 500–599). -/
def retryableStatus (status : Nat) : Bool :=
  (500 ≤ status && status ≤ 599) || status == 429

/-- The `for attempt in 0..max_attempts` loop of `get_with_retry`,
structured on the remaining iteration count (`fuel`); the network is an
oracle from attempt number to outcome.  Returns the result together with
the list of backoff sleeps performed.  The fuel-exhausted case corresponds
to falling off the loop, which is unreachable when `retry_count ≥ 1`
(the builder enforces `n.max(1)`). -/
def get_with_retry_aux (net : Nat → SendOutcome) (backoff_secs : List Nat) :
    Nat → Nat → RetryResult × List Nat
  | _, 0 => (.err ⟨false, false, 0⟩, [])
  | attempt, fuel + 1 =>
    match net attempt with
    | .ok status =>
      if retryableStatus status && decide (0 < fuel) then
        ((get_with_retry_aux net backoff_secs (attempt + 1) fuel).1,
          (if status == 429 then backoff429At attempt else backoffAt backoff_secs attempt)
            :: (get_with_retry_aux net backoff_secs (attempt + 1) fuel).2)
      else (.resp status, [])
    | .err e =>
      if (e.is_timeout || e.is_connect) && decide (0 < fuel) then
        ((get_with_retry_aux net backoff_secs (attempt + 1) fuel).1,
          backoffAt backoff_secs attempt
            :: (get_with_retry_aux net backoff_secs (attempt + 1) fuel).2)
      else (.err e, [])

/-- `PoliteClient::get_with_retry` from `src/scraper/client.rs`, over the
network oracle, with the configured attempt count and backoff schedule. -/
def get_with_retry (net : Nat → SendOutcome) (retry_count : Nat)
    (backoff_secs : List Nat) : RetryResult × List Nat :=
  get_with_retry_aux net backoff_secs 0 retry_count

theorem get_with_retry_aux_length (net : Nat → SendOutcome) (bs : List Nat) :
    ∀ (fuel attempt : Nat), 1 ≤ fuel →
      (get_with_retry_aux net bs attempt fuel).2.length + 1 ≤ fuel := by
  intro fuel
  induction fuel with
  | zero => intro a h; omega
  | succ f ih =>
    intro a _
    unfold get_with_retry_aux
    cases hnet : net a with
    | ok status =>
      by_cases hcond : (retryableStatus status && decide (0 < f)) = true
      · have hf : 1 ≤ f := by
          rcases (Bool.and_eq_true _ _).mp hcond with ⟨_, h2⟩
          have := of_decide_eq_true h2
          omega
        have hrec := ih (a + 1) hf
        simp only [hcond, if_pos, List.length_cons]
        omega
      · simp [hcond]
    | err e =>
      by_cases hcond : ((e.is_timeout || e.is_connect) && decide (0 < f)) = true
      · have hf : 1 ≤ f := by
          rcases (Bool.and_eq_true _ _).mp hcond with ⟨_, h2⟩
          have := of_decide_eq_true h2
          omega
        have hrec := ih (a + 1) hf
        simp only [hcond, if_pos, List.length_cons]
        omega
      · simp [hcond]

/-- C2: `get_with_retry` makes at most N attempts (sleeps-between-attempts
plus one, N defaulting to 5); a first outcome that is a non-retryable
status (any non-5xx, non-429 status, in particular other 4xx) or a
non-retryable transport error is returned immediately with no retry; runs
whose outcomes are all retryable sleep per the 30/60/90/120 schedule for
HTTP 429 and per the 1/2/4/8 schedule for 5xx and connect/timeout errors,
the last schedule value repeating once the attempt number exceeds the
schedule length (N = 7 cases); and exhausting all attempts surfaces the
final attempt's outcome — the last transport error, or the last error
response whose status the caller turns into the HTTP-status error. -/
theorem c2_get_with_retry :
    (∀ (net : Nat → SendOutcome) (N : Nat) (bs : List Nat), 1 ≤ N →
        (get_with_retry net N bs).2.length + 1 ≤ N)
    ∧ (∀ (net : Nat → SendOutcome) (N : Nat) (bs : List Nat) (s : Nat), 1 ≤ N →
        retryableStatus s = false → net 0 = .ok s →
        get_with_retry net N bs = (.resp s, []))
    ∧ (∀ (net : Nat → SendOutcome) (N : Nat) (bs : List Nat) (e : ReqError), 1 ≤ N →
        (e.is_timeout || e.is_connect) = false → net 0 = .err e →
        get_with_retry net N bs = (.err e, []))
    ∧ (∀ net : Nat → SendOutcome, (∀ i, net i = .ok 429) →
        get_with_retry net DEFAULT_RETRY_COUNT DEFAULT_BACKOFF_SECS
          = (.resp 429, [30, 60, 90, 120]))
    ∧ (∀ net : Nat → SendOutcome, (∀ i, net i = .ok 503) →
        get_with_retry net DEFAULT_RETRY_COUNT DEFAULT_BACKOFF_SECS
          = (.resp 503, [1, 2, 4, 8]))
    ∧ (∀ (net : Nat → SendOutcome) (e : Nat → ReqError),
        (∀ i, ((e i).is_timeout || (e i).is_connect) = true) →
        (∀ i, net i = .err (e i)) →
        get_with_retry net DEFAULT_RETRY_COUNT DEFAULT_BACKOFF_SECS
          = (.err (e 4), [1, 2, 4, 8]))
    ∧ (∀ net : Nat → SendOutcome, (∀ i, net i = .ok 429) →
        get_with_retry net 7 DEFAULT_BACKOFF_SECS
          = (.resp 429, [30, 60, 90, 120, 120, 120]))
    ∧ (∀ net : Nat → SendOutcome, (∀ i, net i = .ok 500) →
        get_with_retry net 7 DEFAULT_BACKOFF_SECS
          = (.resp 500, [1, 2, 4, 8, 8, 8])) := by
  refine ⟨?_, ?_, ?_, ?_, ?_, ?_, ?_, ?_⟩
  · intro net N bs hN
    exact get_with_retry_aux_length net bs N 0 hN
  · intro net N bs s hN hs hnet
    obtain ⟨M, rfl⟩ : ∃ M, N = M + 1 := ⟨N - 1, by omega⟩
    unfold get_with_retry get_with_retry_aux
    rw [hnet]
    simp [hs]
  · intro net N bs e hN he hnet
    obtain ⟨M, rfl⟩ : ∃ M, N = M + 1 := ⟨N - 1, by omega⟩
    unfold get_with_retry get_with_retry_aux
    rw [hnet]
    simp [he]
  · intro net hnet
    simp [get_with_retry, DEFAULT_RETRY_COUNT, get_with_retry_aux, hnet,
      retryableStatus, backoff429At, BACKOFF_429_SECS]
  · intro net hnet
    simp [get_with_retry, DEFAULT_RETRY_COUNT, get_with_retry_aux, hnet,
      retryableStatus, backoffAt, DEFAULT_BACKOFF_SECS]
  · intro net e he hnet
    simp [get_with_retry, DEFAULT_RETRY_COUNT, get_with_retry_aux, hnet, he,
      backoffAt, DEFAULT_BACKOFF_SECS]
  · intro net hnet
    simp [get_with_retry, get_with_retry_aux, hnet,
      retryableStatus, backoff429At, BACKOFF_429_SECS]
  · intro net hnet
    simp [get_with_retry, get_with_retry_aux, hnet,
      retryableStatus, backoffAt, DEFAULT_BACKOFF_SECS]

/-- Witness for C2 at a concrete input: a constant-429 network with the
default configuration sleeps 30/60/90/120 and returns the final 429
response. -/
theorem c2_get_with_retry_witness :
    get_with_retry (fun _ => .ok 429) DEFAULT_RETRY_COUNT DEFAULT_BACKOFF_SECS
      = (.resp 429, [30, 60, 90, 120]) :=
  c2_get_with_retry.2.2.2.1 (fun _ => .ok 429) (fun _ => rfl)

/-- Replace every occurrence of one character by a replacement string
(`str::replace` with a `char` pattern). -/
def replaceCharL (c : Char) (r : List Char) : List Char → List Char
  | [] => []
  | x :: xs => (if x = c then r else [x]) ++ replaceCharL c r xs

/-- `html_escape_inner` shared by both adapters: the four sequential
`replace` calls for the ampersand, angle brackets and quote. -/
def html_escape_inner (s : String) : String :=
  (replaceCharL '"' "&quot;".toList
    (replaceCharL '>' "&gt;".toList
      (replaceCharL '<' "&lt;".toList
        (replaceCharL '&' "&amp;".toList s.toList)))).asString

/-- Royal Road title suffixes stripped from meta/page titles. -/
def rrTitleSuffixes : List String := [" _ Royal Road", " - Royal Road", " | Royal Road"]

/-- Scribble Hub title suffixes stripped from page titles. -/
def shTitleSuffixes : List String := [" | Scribble Hub", " - Scribble Hub"]

/-- Pre-parsed fields of a fetched chapter page, abstracting the DOM
selectors of `parse_chapter_page`: the site-specific heading text
(`h1.font-white.break-word` / `div.chapter-title`), the `og:title` content
(Royal Road only), the first text node of `<title>`, and the content
container (`div.chapter-inner.chapter-content` / `#chp_raw.chp_raw`) as the
list of its direct-child paragraph texts — `none` when the container is
absent. -/
structure ChapterPage where
  heading : Option String
  metaTitle : Option String
  docTitle : Option String
  container : Option (List String)

/-- Royal Road title fallback chain: heading text, else stripped `og:title`,
else stripped `<title>`, else synthesized "Chapter N". -/
def rr_chapter_title (pg : ChapterPage) (index : Nat) : String :=
  ((((pg.heading.map trimS).filter (fun s => s != "")).or
    ((pg.metaTitle.map (fun s => stripTitleSuffixS (trimS s) rrTitleSuffixes)).filter
      (fun s => s != ""))).or
    ((pg.docTitle.map (fun s => stripTitleSuffixS (trimS s) rrTitleSuffixes)).filter
      (fun s => s != ""))).getD ("Chapter " ++ toString index)

/-- Scribble Hub title fallback chain: `div.chapter-title` text, else
stripped `<title>`, else synthesized "Chapter N". -/
def sh_chapter_title (pg : ChapterPage) (index : Nat) : String :=
  (((pg.heading.map trimS).filter (fun s => s != "")).or
    ((pg.docTitle.map (fun s => stripTitleSuffixS (trimS s) shTitleSuffixes)).filter
      (fun s => s != ""))).getD ("Chapter " ++ toString index)

/-- Chapter body: each direct-child paragraph text, trimmed, escaped and
wrapped in paragraph tags, concatenated. -/
def paragraphsBody (ps : List String) : String :=
  String.join (ps.map (fun t => "<p>" ++ html_escape_inner (trimS t) ++ "</p>"))

/-- `parse_chapter_page` from `src/scraper/royalroad.rs`: a missing
container is a parse failure; an empty joined body is a parse failure. -/
def rr_parse_chapter_page (pg : ChapterPage) (index : Nat) (url : String) :
    Except ScrapeErr (String × String) :=
  match pg.container with
  | none => .error (.parseChapter index url)
  | some ps =>
    if paragraphsBody ps = "" then .error (.parseChapter index url)
    else .ok (rr_chapter_title pg index, paragraphsBody ps)

/-- `parse_chapter_page` from `src/scraper/scribblehub.rs`. -/
def sh_parse_chapter_page (pg : ChapterPage) (index : Nat) (url : String) :
    Except ScrapeErr (String × String) :=
  match pg.container with
  | none => .error (.parseChapter index url)
  | some ps =>
    if paragraphsBody ps = "" then .error (.parseChapter index url)
    else .ok (sh_chapter_title pg index, paragraphsBody ps)

/-- `response.status().is_success()`. -/
def is_success (status : Nat) : Bool := 200 ≤ status && status ≤ 299

/-- Outcome of `get_with_retry` on a chapter URL followed by reading the
body: a network error, or a response with a status and (when the body was
readable) the parsed page fields. -/
inductive FetchOutcome where
  | netErr
  | ok (status : Nat) (text : Option ChapterPage)

/-- Placeholder body for a locked chapter. -/
def lockedPlaceholderBody : String :=
  "<p>This chapter is locked (premium) and could not be retrieved.</p>"

/-- Placeholder body for an empty chapter. -/
def noContentBody : String := "<p>This chapter returned no content.</p>"

/-- Placeholder body for an unparsable chapter. -/
def unableToParseBody : String :=
  "<p>This chapter could not be parsed (missing content container).</p>"

/-- What the crawl loop does with one chapter after the page was fetched and
parsed: skip it, append a chapter (real or placeholder) to the book, or
abort the whole crawl.  This is the `match parse_chapter_page(..)` block of
`scrape_book`, identical in both adapters. -/
inductive ChapterStep where
  | skip
  | append (b : Book)
  | abort (e : ScrapeErr)
deriving DecidableEq

/-- The empty-chapter policy dispatch of `scrape_book` on the result of
`parse_chapter_page` (both adapters, verbatim). -/
def applyParsed (eb : EmptyChapterBehavior) (book : Book) (index : Nat) (url : String)
    (parsed : Except ScrapeErr (String × String)) : ChapterStep :=
  match parsed with
  | .ok (t, body) =>
    if body = "" then
      match eb with
      | .Skip => .skip
      | .Placeholder => .append (pushSort book ⟨t ++ " (no content)", index, noContentBody⟩)
      | .Fail => .abort (.emptyChapter index url)
    else .append (pushSort book ⟨t, index, body⟩)
  | .error (.parseChapter pi u) =>
    match eb with
    | .Skip => .skip
    | .Placeholder =>
      .append (pushSort book
        ⟨"Chapter " ++ toString pi ++ " (unable to parse)", pi, unableToParseBody⟩)
    | .Fail => .abort (.parseChapter pi u)
  | .error e => .abort e

/-- Per-chapter fetch handling of `scrape_book` (both adapters): network
error, non-success status and unreadable body are non-fatal skips; a
readable page goes through `parse_chapter_page` and the empty-chapter
policy. -/
def handle_fetched (parse : ChapterPage → Nat → String → Except ScrapeErr (String × String))
    (eb : EmptyChapterBehavior) (book : Book) (index : Nat) (url : String)
    (out : FetchOutcome) : ChapterStep :=
  match out with
  | .netErr => .skip
  | .ok status text? =>
    if is_success status = false then .skip
    else
      match text? with
      | none => .skip
      | some pg => applyParsed eb book index url (parse pg index url)

/-- Observable trace of one crawl: every chapter-body fetch attempt (TOC
index and URL), every checkpoint-callback snapshot, every progress-callback
pair. -/
structure CrawlTrace where
  fetched : List (Nat × String)
  checkpoints : List Book
  progress : List (Nat × Nat)
deriving DecidableEq

/-- Trace of a crawl that has not fetched anything yet. -/
def emptyTrace : CrawlTrace := ⟨[], [], []⟩

/-- State threaded through the chapter loop of `scrape_book`. -/
structure LoopState where
  book : Book
  done : Nat
  trace : CrawlTrace
  cancelCalls : Nat

/-- Crawl options from `src/scraper/mod.rs` (`ScrapeOptions`); callbacks are
replaced by the recorded trace.  The field `cancel_check` is used by
`scribblehub.rs` but not declared under `src/`.  Modelled from the spec:
an externally supplied cancellation check polled between chapters (here a
predicate on the number of prior polls). -/
structure ScrapeOptions where
  chapter_range : Option (Nat × Nat)
  initial_book : Option Book
  locked_behavior : Option LockedChapterBehavior
  empty_chapter_behavior : Option EmptyChapterBehavior
  toc_only : Bool
  cancel_check : Option (Nat → Bool)

/-- Chapter loop of `RoyalRoadScraper::scrape_book` (lines 426–561): skip
indices already present; count and report progress; dispatch locked entries
per policy; fetch, then handle the page per the empty-chapter policy; on
every append re-sort and checkpoint.  Returns the loop outcome (an abort
error, if any) and the final state. -/
def rr_loop (fetch : String → FetchOutcome) (lb : LockedChapterBehavior)
    (eb : EmptyChapterBehavior) (locked_count total : Nat) :
    List TocEntry → LoopState → Option ScrapeErr × LoopState
  | [], st => (none, st)
  | e :: rest, st =>
    if st.book.chapters.any (fun c => c.index == e.index) then
      rr_loop fetch lb eb locked_count total rest st
    else
      let st1 : LoopState :=
        { st with
          done := st.done + 1
          trace := { st.trace with progress := st.trace.progress ++ [(st.done + 1, total)] } }
      if e.unlocked = false then
        match lb with
        | .Skip => rr_loop fetch lb eb locked_count total rest st1
        | .Placeholder =>
          let b := pushSort st1.book ⟨e.title ++ " (locked)", e.index, lockedPlaceholderBody⟩
          rr_loop fetch lb eb locked_count total rest
            { st1 with
              book := b
              trace := { st1.trace with checkpoints := st1.trace.checkpoints ++ [b] } }
        | .Fail => (some (.lockedChaptersNotAllowed locked_count), st1)
      else
        let st2 : LoopState :=
          { st1 with trace :=
            { st1.trace with fetched := st1.trace.fetched ++ [(e.index, e.url)] } }
        match handle_fetched rr_parse_chapter_page eb st2.book e.index e.url (fetch e.url) with
        | .skip => rr_loop fetch lb eb locked_count total rest st2
        | .append b =>
          rr_loop fetch lb eb locked_count total rest
            { st2 with
              book := b
              trace := { st2.trace with checkpoints := st2.trace.checkpoints ++ [b] } }
        | .abort err => (some err, st2)

/-- Toc-only loop of `RoyalRoadScraper::scrape_book` (lines 394–424):
synthesize title-only chapters without fetching; locked entries are
skipped, placeholder-titled, or (under Fail, unreachable past the pre-loop
check) ignored. -/
def rr_toc_only_loop (lb : LockedChapterBehavior) : List TocEntry → Book → Book
  | [], book => book
  | e :: rest, book =>
    if book.chapters.any (fun c => c.index == e.index) then rr_toc_only_loop lb rest book
    else if e.unlocked = false then
      match lb with
      | .Skip => rr_toc_only_loop lb rest book
      | .Placeholder =>
        rr_toc_only_loop lb rest
          { book with chapters := book.chapters ++ [⟨e.title ++ " (locked)", e.index, ""⟩] }
      | .Fail => rr_toc_only_loop lb rest book
    else
      rr_toc_only_loop lb rest
        { book with chapters := book.chapters ++ [⟨e.title, e.index, ""⟩] }

/-- `RoyalRoadScraper::scrape_book` from `src/scraper/royalroad.rs`, from
the point where the index page has been fetched: the TOC parse result and
the metadata parse result (`none` is `parse_metadata`'s missing-title-or-
author failure) abstract the index page; then the locked-count fail-fast
check, the pre-filter total, the inclusive range filter, resume-or-fresh
book setup, the toc-only branch or the chapter loop, and the final
no-chapters check. -/
def rr_scrape_book (fetch : String → FetchOutcome)
    (tocResult : Except ScrapeErr (List TocEntry)) (meta : Option Meta)
    (fiction_url : String) (opts : ScrapeOptions) :
    Except ScrapeErr Book × CrawlTrace :=
  match tocResult with
  | .error e => (.error e, emptyTrace)
  | .ok toc0 =>
    if 0 < (toc0.filter (fun e => e.unlocked = false)).length
        ∧ opts.locked_behavior.getD .Skip = .Fail then
      (.error (.lockedChaptersNotAllowed
        ((toc0.filter (fun e => e.unlocked = false)).length)), emptyTrace)
    else
      match
        match opts.initial_book with
        | some init => Except.ok init
        | none =>
          match meta with
          | some m =>
            Except.ok (Book.mk m.title m.author m.description m.cover_url [] (some fiction_url))
          | none =>
            Except.error (ScrapeErr.parseStoryPage
              "missing title or author (selector or structure may have changed)")
      with
      | .error e => (.error e, emptyTrace)
      | .ok book =>
        let toc := match opts.chapter_range with
          | some p => toc0.filter (fun e => p.1 ≤ e.index && e.index ≤ p.2)
          | none => toc0
        if opts.toc_only then
          let b := rr_toc_only_loop (opts.locked_behavior.getD .Skip) toc book
          (.ok { b with chapters := sortByIndex b.chapters }, emptyTrace)
        else
          let res := rr_loop fetch (opts.locked_behavior.getD .Skip)
            (opts.empty_chapter_behavior.getD .Skip)
            ((toc0.filter (fun e => e.unlocked = false)).length) toc0.length toc
            ⟨book, 0, emptyTrace, 0⟩
          match res.1 with
          | some e => (.error e, res.2.trace)
          | none =>
            if res.2.book.chapters.isEmpty then (.error .noChaptersRetrieved, res.2.trace)
            else (.ok res.2.book, res.2.trace)

/-- Page-collection loop of `fetch_full_toc` in `src/scraper/scribblehub.rs`
(the `while let Some(next_url)` walk over the next-page chain, each page
already fetched and parsed; any page failure aborts). -/
def collectTocPages (acc : List ShEntry) :
    List (Except ScrapeErr (List ShEntry)) → Except ScrapeErr (List ShEntry)
  | [] => .ok acc
  | p :: rest =>
    match p with
    | .error e => .error e
    | .ok es => collectTocPages (acc ++ es) rest

/-- Pagination fallback path of `fetch_full_toc`: first page entries plus
the followed pages, merged; an empty merge is the fatal empty-chapter-list
error. -/
def fetch_paginated_toc :
    Except ScrapeErr (List ShEntry) → List (Except ScrapeErr (List ShEntry)) →
    Except ScrapeErr (List ShEntry)
  | .error e, _ => .error e
  | .ok es0, pages =>
    match collectTocPages es0 pages with
    | .error e => .error e
    | .ok all =>
      if (merge_toc_entries all).isEmpty then .error .emptyChapterList
      else .ok (merge_toc_entries all)

/-- `fetch_full_toc` from `src/scraper/scribblehub.rs`: try the AJAX
"show all" endpoint first (`ajax` is `none` when no numeric series id could
be extracted, otherwise the fetched-and-parsed result, merged as in
`fetch_full_toc_via_ajax`); an AJAX error aborts, a non-empty AJAX result
wins, an empty one falls back to pagination. -/
def fetch_full_toc (ajax : Option (Except ScrapeErr (List ShEntry)))
    (firstPage : Except ScrapeErr (List ShEntry))
    (pages : List (Except ScrapeErr (List ShEntry))) : Except ScrapeErr (List ShEntry) :=
  match ajax with
  | some (.error e) => .error e
  | some (.ok raw) =>
    if (merge_toc_entries raw).isEmpty then fetch_paginated_toc firstPage pages
    else .ok (merge_toc_entries raw)
  | none => fetch_paginated_toc firstPage pages

/-- Chapter loop of `ScribbleHubScraper::scrape_book` (lines 497–612): skip
present indices, poll the cancellation check, fetch and handle the page;
progress is counted on successful append only.  The cancellation check is
referenced by the source but not declared under `src/`; modelled from the
spec as an optional poll between chapters. -/
def sh_loop (fetch : String → FetchOutcome) (eb : EmptyChapterBehavior) (total : Nat)
    (cancel : Option (Nat → Bool)) :
    List ShEntry → LoopState → Option ScrapeErr × LoopState
  | [], st => (none, st)
  | e :: rest, st =>
    if st.book.chapters.any (fun c => c.index == e.index) then
      sh_loop fetch eb total cancel rest st
    else
      let st1 : LoopState := { st with cancelCalls := st.cancelCalls + 1 }
      if (cancel.map (fun f => f st.cancelCalls)).getD false then
        (some .cancelled, st1)
      else
        let st2 : LoopState :=
          { st1 with trace :=
            { st1.trace with fetched := st1.trace.fetched ++ [(e.index, e.url)] } }
        match handle_fetched sh_parse_chapter_page eb st2.book e.index e.url (fetch e.url) with
        | .skip => sh_loop fetch eb total cancel rest st2
        | .append b =>
          sh_loop fetch eb total cancel rest
            { st2 with
              book := b
              done := st2.done + 1
              trace := { st2.trace with
                progress := st2.trace.progress ++ [(st2.done + 1, total)]
                checkpoints := st2.trace.checkpoints ++ [b] } }
        | .abort err => (some err, st2)

/-- Toc-only loop of `ScribbleHubScraper::scrape_book` (lines 482–495). -/
def sh_toc_only_loop : List ShEntry → Book → Book
  | [], book => book
  | e :: rest, book =>
    if book.chapters.any (fun c => c.index == e.index) then sh_toc_only_loop rest book
    else
      sh_toc_only_loop rest
        { book with chapters := book.chapters ++ [⟨e.title, e.index, ""⟩] }

/-- `ScribbleHubScraper::scrape_book` from `src/scraper/scribblehub.rs`,
from the point where the series page has been fetched: TOC discovery via
`fetch_full_toc` (its inputs abstract the AJAX call and the pagination
chain), the pre-filter total, the range filter, resume-or-fresh book setup,
the toc-only branch or the chapter loop, and the final no-chapters check. -/
def sh_scrape_book (fetch : String → FetchOutcome)
    (ajax : Option (Except ScrapeErr (List ShEntry)))
    (firstPage : Except ScrapeErr (List ShEntry))
    (pages : List (Except ScrapeErr (List ShEntry)))
    (meta : Option Meta) (series_url : String) (opts : ScrapeOptions) :
    Except ScrapeErr Book × CrawlTrace :=
  match fetch_full_toc ajax firstPage pages with
  | .error e => (.error e, emptyTrace)
  | .ok toc0 =>
    match
      match opts.initial_book with
      | some init => Except.ok init
      | none =>
        match meta with
        | some m =>
          Except.ok (Book.mk m.title m.author m.description m.cover_url [] (some series_url))
        | none =>
          Except.error (ScrapeErr.parseStoryPage
            "missing title or author (selector or structure may have changed)")
    with
    | .error e => (.error e, emptyTrace)
    | .ok book =>
      let toc := match opts.chapter_range with
        | some p => toc0.filter (fun e => p.1 ≤ e.index && e.index ≤ p.2)
        | none => toc0
      if opts.toc_only then
        let b := sh_toc_only_loop toc book
        (.ok { b with chapters := sortByIndex b.chapters }, emptyTrace)
      else
        let res := sh_loop fetch (opts.empty_chapter_behavior.getD .Skip)
          toc0.length opts.cancel_check toc ⟨book, 0, emptyTrace, 0⟩
        match res.1 with
        | some e => (.error e, res.2.trace)
        | none =>
          if res.2.book.chapters.isEmpty then (.error .noChaptersRetrieved, res.2.trace)
          else (.ok res.2.book, res.2.trace)

/-- C9: for every fetched chapter page and every empty-chapter policy, the
per-chapter outcome (skip, placeholder append, or whole-crawl abort) is
identical whether the content container is entirely absent or present with
zero direct-child paragraphs — both reduce to the same parse failure and
are handled by the same policy dispatch, in both adapters. -/
theorem c9_empty_container_uniform :
    ∀ (eb : EmptyChapterBehavior) (book : Book) (index : Nat) (url : String)
      (heading metaTitle docTitle : Option String),
      applyParsed eb book index url
          (rr_parse_chapter_page ⟨heading, metaTitle, docTitle, none⟩ index url)
        = applyParsed eb book index url
          (rr_parse_chapter_page ⟨heading, metaTitle, docTitle, some []⟩ index url)
      ∧ applyParsed eb book index url
          (sh_parse_chapter_page ⟨heading, metaTitle, docTitle, none⟩ index url)
        = applyParsed eb book index url
          (sh_parse_chapter_page ⟨heading, metaTitle, docTitle, some []⟩ index url) := by
  intro eb book index url heading metaTitle docTitle
  exact ⟨rfl, rfl⟩

theorem rr_parse_error_shape (pg : ChapterPage) (i : Nat) (u : String) (e : ScrapeErr)
    (h : rr_parse_chapter_page pg i u = .error e) : e = .parseChapter i u := by
  unfold rr_parse_chapter_page at h
  cases hc : pg.container with
  | none =>
    rw [hc] at h
    simpa using h.symm
  | some ps =>
    rw [hc] at h
    by_cases hb : paragraphsBody ps = ""
    · simp only [hb, if_true] at h
      simpa using h.symm
    · simp [hb] at h

theorem sh_parse_error_shape (pg : ChapterPage) (i : Nat) (u : String) (e : ScrapeErr)
    (h : sh_parse_chapter_page pg i u = .error e) : e = .parseChapter i u := by
  unfold sh_parse_chapter_page at h
  cases hc : pg.container with
  | none =>
    rw [hc] at h
    simpa using h.symm
  | some ps =>
    rw [hc] at h
    by_cases hb : paragraphsBody ps = ""
    · simp only [hb, if_true] at h
      simpa using h.symm
    · simp [hb] at h

theorem handle_fetched_shape
    (parse : ChapterPage → Nat → String → Except ScrapeErr (String × String))
    (hparse : ∀ pg i u e, parse pg i u = .error e → e = .parseChapter i u)
    (eb : EmptyChapterBehavior) (i : Nat) (u : String) (out : FetchOutcome) :
    (∀ b, handle_fetched parse eb b i u out = .skip)
    ∨ (∃ c : Chapter, c.index = i ∧
        ∀ b, handle_fetched parse eb b i u out = .append (pushSort b c))
    ∨ (∃ err, (err = .emptyChapter i u ∨ err = .parseChapter i u) ∧
        ∀ b, handle_fetched parse eb b i u out = .abort err) := by
  cases out with
  | netErr => exact Or.inl fun b => rfl
  | ok status text? =>
    by_cases hs : is_success status = false
    · exact Or.inl fun b => by simp [handle_fetched, hs]
    · cases text? with
      | none => exact Or.inl fun b => by simp [handle_fetched, hs]
      | some pg =>
        have hred : ∀ b, handle_fetched parse eb b i u (.ok status (some pg))
            = applyParsed eb b i u (parse pg i u) := by
          intro b
          simp [handle_fetched, hs]
        cases hp : parse pg i u with
        | ok pr =>
          obtain ⟨t, body⟩ := pr
          by_cases hb : body = ""
          · cases eb with
            | Skip =>
              exact Or.inl fun b => by rw [hred, hp]; simp [applyParsed, hb]
            | Placeholder =>
              exact Or.inr (Or.inl ⟨⟨t ++ " (no content)", i, noContentBody⟩, rfl,
                fun b => by rw [hred, hp]; simp [applyParsed, hb]⟩)
            | Fail =>
              exact Or.inr (Or.inr ⟨.emptyChapter i u, Or.inl rfl,
                fun b => by rw [hred, hp]; simp [applyParsed, hb]⟩)
          · exact Or.inr (Or.inl ⟨⟨t, i, body⟩, rfl,
              fun b => by rw [hred, hp]; simp [applyParsed, hb]⟩)
        | error e =>
          have he := hparse pg i u e hp
          subst he
          cases eb with
          | Skip =>
            exact Or.inl fun b => by rw [hred, hp]; simp [applyParsed]
          | Placeholder =>
            exact Or.inr (Or.inl ⟨⟨"Chapter " ++ toString i ++ " (unable to parse)", i,
              unableToParseBody⟩, rfl,
              fun b => by rw [hred, hp]; simp [applyParsed]⟩)
          | Fail =>
            exact Or.inr (Or.inr ⟨.parseChapter i u, Or.inr rfl,
              fun b => by rw [hred, hp]; simp [applyParsed]⟩)

theorem rr_loop_no_locked_error (fetch : String → FetchOutcome)
    (lb : LockedChapterBehavior) (eb : EmptyChapterBehavior)
    (locked_count total : Nat) (hlb : lb ≠ .Fail) :
    ∀ (toc : List TocEntry) (st : LoopState) (c : Nat),
      (rr_loop fetch lb eb locked_count total toc st).1
        ≠ some (.lockedChaptersNotAllowed c) := by
  intro toc
  induction toc with
  | nil =>
    intro st c
    simp [rr_loop]
  | cons e rest ih =>
    intro st c
    simp only [rr_loop]
    split
    · exact ih _ c
    · split
      · split
        · exact ih _ c
        · exact ih _ c
        · exact absurd rfl hlb
      · rcases handle_fetched_shape rr_parse_chapter_page rr_parse_error_shape eb
            e.index e.url (fetch e.url) with hsk | ⟨ch, hch, hap⟩ | ⟨err, herr, hab⟩
        · simp only [hsk]
          exact ih _ c
        · simp only [hap]
          exact ih _ c
        · simp only [hab]
          rcases herr with rfl | rfl <;> simp

/-- C4: whenever the discovered TOC contains a locked entry and the
locked-chapter policy is Fail, the crawl aborts with the locked-count error
and an empty trace — no chapter body is ever fetched; under Skip or
Placeholder the crawl never fails with a locked-count error at any stage. -/
theorem c4_locked_fail_aborts_pre_fetch :
    ∀ (fetch : String → FetchOutcome) (toc : List TocEntry) (meta : Option Meta)
      (url : String) (opts : ScrapeOptions),
      (opts.locked_behavior.getD .Skip = .Fail →
        (∃ e ∈ toc, e.unlocked = false) →
        rr_scrape_book fetch (.ok toc) meta url opts
          = (.error (.lockedChaptersNotAllowed
              ((toc.filter (fun e => e.unlocked = false)).length)), emptyTrace))
      ∧ (opts.locked_behavior.getD .Skip ≠ .Fail →
        ∀ c, (rr_scrape_book fetch (.ok toc) meta url opts).1
            ≠ .error (.lockedChaptersNotAllowed c)) := by
  intro fetch toc meta url opts
  constructor
  · intro hfail ⟨e, he, hu⟩
    have hmem : e ∈ toc.filter (fun x => x.unlocked = false) := by
      rw [List.mem_filter]
      exact ⟨he, by simp [hu]⟩
    have hpos : 0 < (toc.filter (fun x => x.unlocked = false)).length :=
      List.length_pos.mpr (List.ne_nil_of_mem hmem)
    simp only [rr_scrape_book]
    rw [if_pos ⟨hpos, hfail⟩]
  · intro hnf c
    simp only [rr_scrape_book]
    rw [if_neg (by intro hcontra; exact hnf hcontra.2)]
    split
    · rename_i e heq
      have : e = .parseStoryPage
          "missing title or author (selector or structure may have changed)" := by
        rcases hib : opts.initial_book with _ | init
        · rcases hm : meta with _ | m
          · rw [hib, hm] at heq
            simpa using heq.symm
          · rw [hib, hm] at heq
            simp at heq
        · rw [hib] at heq
          simp at heq
      subst this
      simp
    · split
      · simp
      · have hloop := rr_loop_no_locked_error fetch (opts.locked_behavior.getD .Skip)
          (opts.empty_chapter_behavior.getD .Skip)
          ((toc.filter (fun e => e.unlocked = false)).length) toc.length hnf
        split
        · rename_i e heq
          intro hcontra
          have he : e = .lockedChaptersNotAllowed c := by
            simpa using hcontra
          subst he
          exact hloop _ _ c heq
        · split <;> simp

/-- Witness for C4 at a concrete input: one locked entry under policy Fail
aborts with the locked count and fetches nothing. -/
theorem c4_locked_fail_witness :
    rr_scrape_book (fun _ => .netErr) (.ok [⟨1, "u1", "t1", false⟩])
        (some ⟨"t", "a", none, none⟩) "u"
        ⟨none, none, some .Fail, none, false, none⟩
      = (.error (.lockedChaptersNotAllowed 1), emptyTrace) := by
  have h := (c4_locked_fail_aborts_pre_fetch (fun _ => .netErr)
    [⟨1, "u1", "t1", false⟩] (some ⟨"t", "a", none, none⟩) "u"
    ⟨none, none, some .Fail, none, false, none⟩).1 (by decide)
    ⟨⟨1, "u1", "t1", false⟩, by decide, by decide⟩
  simpa using h

theorem fetch_paginated_toc_ne_ok_nil (firstPage : Except ScrapeErr (List ShEntry))
    (pages : List (Except ScrapeErr (List ShEntry))) :
    fetch_paginated_toc firstPage pages ≠ .ok [] := by
  cases firstPage with
  | error e => simp [fetch_paginated_toc]
  | ok es0 =>
    rw [fetch_paginated_toc]
    cases hc : collectTocPages es0 pages with
    | error e => simp
    | ok all =>
      show (if (merge_toc_entries all).isEmpty = true
          then (Except.error ScrapeErr.emptyChapterList : Except ScrapeErr (List ShEntry))
          else Except.ok (merge_toc_entries all)) ≠ Except.ok []
      by_cases hemp : (merge_toc_entries all).isEmpty = true
      · rw [if_pos hemp]; simp
      · rw [if_neg hemp]
        intro hcontra
        have h2 : merge_toc_entries all = [] := by simpa using hcontra
        rw [h2] at hemp
        simp at hemp

/-- C1 (amended): on Scribble Hub, TOC discovery that completes with no
entries is the fatal empty-chapter-list error, raised before any chapter
body is fetched (discovery never returns an empty list as success); on
Royal Road, an empty TOC is returned as an empty success by discovery, the
crawl fetches no chapter bodies, and a fresh non-toc-only crawl fails only
at the end with the no-chapters-retrieved error, not with the
empty-chapter-list error. -/
theorem c1_empty_toc_amended :
    (∀ (ajax : Option (Except ScrapeErr (List ShEntry)))
        (firstPage : Except ScrapeErr (List ShEntry))
        (pages : List (Except ScrapeErr (List ShEntry))),
        fetch_full_toc ajax firstPage pages ≠ .ok [])
    ∧ (∀ (fetch : String → FetchOutcome) (ajax : Option (Except ScrapeErr (List ShEntry)))
        (firstPage : Except ScrapeErr (List ShEntry))
        (pages : List (Except ScrapeErr (List ShEntry)))
        (meta : Option Meta) (url : String) (opts : ScrapeOptions),
        fetch_full_toc ajax firstPage pages = .error .emptyChapterList →
        sh_scrape_book fetch ajax firstPage pages meta url opts
          = (.error .emptyChapterList, emptyTrace))
    ∧ (∀ (fetch : String → FetchOutcome) (m : Meta) (url : String)
        (opts : ScrapeOptions), opts.toc_only = false → opts.initial_book = none →
        rr_scrape_book fetch (.ok []) (some m) url opts
          = (.error .noChaptersRetrieved, emptyTrace)) := by
  refine ⟨?_, ?_, ?_⟩
  · intro ajax firstPage pages
    unfold fetch_full_toc
    match ajax with
    | none => exact fetch_paginated_toc_ne_ok_nil firstPage pages
    | some (.error e) => simp
    | some (.ok raw) =>
      by_cases hemp : (merge_toc_entries raw).isEmpty = true
      · simp only [hemp, if_true]
        exact fetch_paginated_toc_ne_ok_nil firstPage pages
      · simp only [hemp, if_false, Bool.false_eq_true]
        intro hcontra
        have : merge_toc_entries raw = [] := by simpa using hcontra
        rw [this] at hemp
        simp at hemp
  · intro fetch ajax firstPage pages meta url opts h
    simp [sh_scrape_book, h]
  · intro fetch m url opts htoc hinit
    simp only [rr_scrape_book]
    rw [if_neg (by simp)]
    rw [hinit]
    simp only
    cases hcr : opts.chapter_range with
    | none => simp [htoc, rr_loop, emptyTrace]
    | some p => simp [htoc, rr_loop, emptyTrace]

/-- Counterexample for C1 as stated: a Royal Road crawl whose TOC discovery
completes with an empty chapter list does not fail with the
empty-chapter-list ("no chapters found") error — it fails with the distinct
no-chapters-retrieved error after the (empty) loop. -/
theorem c1_counterexample :
    rr_scrape_book (fun _ => .netErr) (.ok []) (some ⟨"t", "a", none, none⟩) "u"
        ⟨none, none, none, none, false, none⟩
      = (.error .noChaptersRetrieved, emptyTrace)
    ∧ ScrapeErr.noChaptersRetrieved ≠ ScrapeErr.emptyChapterList := by
  exact ⟨rfl, by decide⟩

/-- Witness for C1 (amended) at a concrete input: a Scribble Hub crawl whose
pagination yields no entries fails with the empty-chapter-list error and an
empty trace. -/
theorem c1_empty_toc_witness :
    sh_scrape_book (fun _ => .netErr) none (.ok []) [] (some ⟨"t", "a", none, none⟩)
        "u" ⟨none, none, none, none, false, none⟩
      = (.error .emptyChapterList, emptyTrace) :=
  c1_empty_toc_amended.2.1 (fun _ => .netErr) none (.ok []) [] (some ⟨"t", "a", none, none⟩)
    "u" ⟨none, none, none, none, false, none⟩ rfl

/-- The Book invariant of the data model: chapters sorted ascending by index
with pairwise-distinct indices. -/
def ChaptersOk (l : List Chapter) : Prop :=
  l.Sorted chapterLE ∧ (l.map Chapter.index).Nodup

instance : IsTotal Chapter chapterLE := ⟨fun a b => Nat.le_total a.index b.index⟩

instance : IsTrans Chapter chapterLE := ⟨fun _ _ _ => Nat.le_trans⟩

theorem sortByIndex_perm (l : List Chapter) : List.Perm (sortByIndex l) l :=
  List.perm_insertionSort chapterLE l

theorem sortByIndex_sorted (l : List Chapter) : (sortByIndex l).Sorted chapterLE :=
  List.sorted_insertionSort chapterLE l

theorem index_not_mem_of_any_eq_false {l : List Chapter} {i : Nat}
    (h : ¬(l.any (fun c => c.index == i) = true)) : i ∉ l.map Chapter.index := by
  intro hmem
  apply h
  rw [List.any_eq_true]
  obtain ⟨c, hc, hci⟩ := List.mem_map.mp hmem
  exact ⟨c, hc, by simp [hci]⟩

theorem nodup_index_append {l : List Chapter} {c : Chapter}
    (h : (l.map Chapter.index).Nodup) (hf : c.index ∉ l.map Chapter.index) :
    ((l ++ [c]).map Chapter.index).Nodup := by
  rw [List.map_append]
  have hperm : List.Perm (l.map Chapter.index ++ [c].map Chapter.index)
      (c.index :: l.map Chapter.index) :=
    List.perm_append_singleton c.index (l.map Chapter.index)
  exact hperm.nodup_iff.mpr (List.nodup_cons.mpr ⟨hf, h⟩)

theorem chaptersOk_pushSort {l : List Chapter} {c : Chapter} (h : ChaptersOk l)
    (hf : c.index ∉ l.map Chapter.index) : ChaptersOk (sortByIndex (l ++ [c])) := by
  refine ⟨sortByIndex_sorted _, ?_⟩
  have hperm : List.Perm ((sortByIndex (l ++ [c])).map Chapter.index)
      ((l ++ [c]).map Chapter.index) := (sortByIndex_perm (l ++ [c])).map Chapter.index
  exact hperm.nodup_iff.mpr (nodup_index_append h.2 hf)

theorem rr_loop_chaptersOk (fetch : String → FetchOutcome) (lb : LockedChapterBehavior)
    (eb : EmptyChapterBehavior) (locked_count total : Nat) :
    ∀ (toc : List TocEntry) (st : LoopState), ChaptersOk st.book.chapters →
      (∀ b ∈ st.trace.checkpoints, ChaptersOk b.chapters) →
      ChaptersOk ((rr_loop fetch lb eb locked_count total toc st).2.book.chapters)
      ∧ (∀ b ∈ (rr_loop fetch lb eb locked_count total toc st).2.trace.checkpoints,
          ChaptersOk b.chapters) := by
  intro toc
  induction toc with
  | nil =>
    intro st h1 h2
    exact ⟨h1, h2⟩
  | cons e rest ih =>
    intro st h1 h2
    simp only [rr_loop]
    split
    · exact ih st h1 h2
    · rename_i hpres
      have hf := index_not_mem_of_any_eq_false hpres
      split
      · split
        · exact ih _ h1 h2
        · have hok : ChaptersOk (sortByIndex (st.book.chapters
              ++ [⟨e.title ++ " (locked)", e.index, lockedPlaceholderBody⟩])) := by
            refine chaptersOk_pushSort h1 ?_
            exact hf
          refine ih _ hok ?_
          intro b hb
          rcases List.mem_append.mp hb with hb | hb
          · exact h2 b hb
          · rw [List.mem_singleton] at hb
            subst hb
            exact hok
        · exact ⟨h1, h2⟩
      · rcases handle_fetched_shape rr_parse_chapter_page rr_parse_error_shape eb
            e.index e.url (fetch e.url) with hsk | ⟨c, hc, hap⟩ | ⟨err, herr, hab⟩
        · simp only [hsk]
          exact ih _ h1 h2
        · simp only [hap]
          have hok := chaptersOk_pushSort h1 (hc ▸ hf)
          refine ih _ hok ?_
          intro b hb
          rcases List.mem_append.mp hb with hb | hb
          · exact h2 b hb
          · rw [List.mem_singleton] at hb
            subst hb
            exact hok
        · simp only [hab]
          exact ⟨h1, h2⟩

theorem sh_loop_chaptersOk (fetch : String → FetchOutcome) (eb : EmptyChapterBehavior)
    (total : Nat) (cancel : Option (Nat → Bool)) :
    ∀ (toc : List ShEntry) (st : LoopState), ChaptersOk st.book.chapters →
      (∀ b ∈ st.trace.checkpoints, ChaptersOk b.chapters) →
      ChaptersOk ((sh_loop fetch eb total cancel toc st).2.book.chapters)
      ∧ (∀ b ∈ (sh_loop fetch eb total cancel toc st).2.trace.checkpoints,
          ChaptersOk b.chapters) := by
  intro toc
  induction toc with
  | nil =>
    intro st h1 h2
    exact ⟨h1, h2⟩
  | cons e rest ih =>
    intro st h1 h2
    simp only [sh_loop]
    split
    · exact ih st h1 h2
    · rename_i hpres
      have hf := index_not_mem_of_any_eq_false hpres
      split
      · exact ⟨h1, h2⟩
      · rcases handle_fetched_shape sh_parse_chapter_page sh_parse_error_shape eb
            e.index e.url (fetch e.url) with hsk | ⟨c, hc, hap⟩ | ⟨err, herr, hab⟩
        · simp only [hsk]
          exact ih _ h1 h2
        · simp only [hap]
          have hok := chaptersOk_pushSort h1 (hc ▸ hf)
          refine ih _ hok ?_
          intro b hb
          rcases List.mem_append.mp hb with hb | hb
          · exact h2 b hb
          · rw [List.mem_singleton] at hb
            subst hb
            exact hok
        · simp only [hab]
          exact ⟨h1, h2⟩

theorem rr_toc_only_nodup (lb : LockedChapterBehavior) :
    ∀ (toc : List TocEntry) (book : Book), (book.chapters.map Chapter.index).Nodup →
      ((rr_toc_only_loop lb toc book).chapters.map Chapter.index).Nodup := by
  intro toc
  induction toc with
  | nil =>
    intro book h
    exact h
  | cons e rest ih =>
    intro book h
    simp only [rr_toc_only_loop]
    split
    · exact ih book h
    · rename_i hpres
      have hf := index_not_mem_of_any_eq_false hpres
      split
      · split
        · exact ih book h
        · exact ih _ (nodup_index_append h hf)
        · exact ih book h
      · exact ih _ (nodup_index_append h hf)

theorem sh_toc_only_nodup :
    ∀ (toc : List ShEntry) (book : Book), (book.chapters.map Chapter.index).Nodup →
      ((sh_toc_only_loop toc book).chapters.map Chapter.index).Nodup := by
  intro toc
  induction toc with
  | nil =>
    intro book h
    exact h
  | cons e rest ih =>
    intro book h
    simp only [sh_toc_only_loop]
    split
    · exact ih book h
    · rename_i hpres
      have hf := index_not_mem_of_any_eq_false hpres
      exact ih _ (nodup_index_append h hf)

theorem rr_scrape_ok_shape (fetch : String → FetchOutcome)
    (tocR : Except ScrapeErr (List TocEntry)) (meta : Option Meta) (url : String)
    (opts : ScrapeOptions) (h₀ : ∀ b₀, opts.initial_book = some b₀ → ChaptersOk b₀.chapters) :
    (∀ bk ∈ (rr_scrape_book fetch tocR meta url opts).2.checkpoints,
        ChaptersOk bk.chapters)
    ∧ (∀ b, (rr_scrape_book fetch tocR meta url opts).1 = .ok b →
        ChaptersOk b.chapters) := by
  simp only [rr_scrape_book]
  split
  · exact ⟨fun bk hbk => absurd hbk (by simp [emptyTrace]), fun b hb => by simp at hb⟩
  next toc0 =>
    split
    · exact ⟨fun bk hbk => absurd hbk (by simp [emptyTrace]), fun b hb => by simp at hb⟩
    next hnolock =>
      split
      · exact ⟨fun bk hbk => absurd hbk (by simp [emptyTrace]), fun b hb => by simp at hb⟩
      next book heq =>
        have hbook : ChaptersOk book.chapters := by
          rcases hib : opts.initial_book with _ | init
          · rcases hm : meta with _ | m
            · rw [hib, hm] at heq
              simp at heq
            · rw [hib, hm] at heq
              have hfresh : Book.mk m.title m.author m.description m.cover_url []
                  (some url) = book := by simpa using heq
              rw [← hfresh]
              exact ⟨List.sorted_nil, List.nodup_nil⟩
          · rw [hib] at heq
            have : init = book := by simpa using heq
            exact this ▸ h₀ init hib
        split
        · constructor
          · intro bk hbk
            exact absurd hbk (by simp [emptyTrace])
          · intro b hb
            simp only [Except.ok.injEq] at hb
            rw [← hb]
            refine ⟨sortByIndex_sorted _, ?_⟩
            exact ((sortByIndex_perm _).map Chapter.index).nodup_iff.mpr
              (rr_toc_only_nodup _ _ _ hbook.2)
        · split
          next res e heq2 =>
            constructor
            · intro bk hbk
              have hloop := rr_loop_chaptersOk fetch (opts.locked_behavior.getD .Skip)
                (opts.empty_chapter_behavior.getD .Skip)
                ((toc0.filter (fun e => e.unlocked = false)).length) toc0.length
                (match opts.chapter_range with
                  | some p => toc0.filter (fun e => p.1 ≤ e.index && e.index ≤ p.2)
                  | none => toc0)
                ⟨book, 0, emptyTrace, 0⟩ hbook
                (by intro b hb; exact absurd hb (by simp [emptyTrace]))
              exact hloop.2 bk hbk
            · intro b hb
              simp at hb
          next res heq2 =>
            have hloop := rr_loop_chaptersOk fetch (opts.locked_behavior.getD .Skip)
              (opts.empty_chapter_behavior.getD .Skip)
              ((toc0.filter (fun e => e.unlocked = false)).length) toc0.length
              (match opts.chapter_range with
                | some p => toc0.filter (fun e => p.1 ≤ e.index && e.index ≤ p.2)
                | none => toc0)
              ⟨book, 0, emptyTrace, 0⟩ hbook
              (by intro b hb; exact absurd hb (by simp [emptyTrace]))
            split
            · exact ⟨fun bk hbk => hloop.2 bk hbk, fun b hb => by simp at hb⟩
            · constructor
              · intro bk hbk
                exact hloop.2 bk hbk
              · intro b hb
                simp only [Except.ok.injEq] at hb
                exact hb ▸ hloop.1

theorem sh_scrape_ok_shape (fetch : String → FetchOutcome)
    (ajax : Option (Except ScrapeErr (List ShEntry)))
    (firstPage : Except ScrapeErr (List ShEntry))
    (pages : List (Except ScrapeErr (List ShEntry)))
    (meta : Option Meta) (url : String) (opts : ScrapeOptions)
    (h₀ : ∀ b₀, opts.initial_book = some b₀ → ChaptersOk b₀.chapters) :
    (∀ bk ∈ (sh_scrape_book fetch ajax firstPage pages meta url opts).2.checkpoints,
        ChaptersOk bk.chapters)
    ∧ (∀ b, (sh_scrape_book fetch ajax firstPage pages meta url opts).1 = .ok b →
        ChaptersOk b.chapters) := by
  simp only [sh_scrape_book]
  split
  · exact ⟨fun bk hbk => absurd hbk (by simp [emptyTrace]), fun b hb => by simp at hb⟩
  next toc0 heq0 =>
    split
    · exact ⟨fun bk hbk => absurd hbk (by simp [emptyTrace]), fun b hb => by simp at hb⟩
    next book heq =>
      have hbook : ChaptersOk book.chapters := by
        rcases hib : opts.initial_book with _ | init
        · rcases hm : meta with _ | m
          · rw [hib, hm] at heq
            simp at heq
          · rw [hib, hm] at heq
            have hfresh : Book.mk m.title m.author m.description m.cover_url []
                (some url) = book := by simpa using heq
            rw [← hfresh]
            exact ⟨List.sorted_nil, List.nodup_nil⟩
        · rw [hib] at heq
          have : init = book := by simpa using heq
          exact this ▸ h₀ init hib
      split
      · constructor
        · intro bk hbk
          exact absurd hbk (by simp [emptyTrace])
        · intro b hb
          simp only [Except.ok.injEq] at hb
          rw [← hb]
          refine ⟨sortByIndex_sorted _, ?_⟩
          exact ((sortByIndex_perm _).map Chapter.index).nodup_iff.mpr
            (sh_toc_only_nodup _ _ hbook.2)
      · split
        next res e heq2 =>
          constructor
          · intro bk hbk
            have hloop := sh_loop_chaptersOk fetch (opts.empty_chapter_behavior.getD .Skip)
              toc0.length opts.cancel_check
              (match opts.chapter_range with
                | some p => toc0.filter (fun e => p.1 ≤ e.index && e.index ≤ p.2)
                | none => toc0)
              ⟨book, 0, emptyTrace, 0⟩ hbook
              (by intro b hb; exact absurd hb (by simp [emptyTrace]))
            exact hloop.2 bk hbk
          · intro b hb
            simp at hb
        next res heq2 =>
          have hloop := sh_loop_chaptersOk fetch (opts.empty_chapter_behavior.getD .Skip)
            toc0.length opts.cancel_check
            (match opts.chapter_range with
              | some p => toc0.filter (fun e => p.1 ≤ e.index && e.index ≤ p.2)
              | none => toc0)
            ⟨book, 0, emptyTrace, 0⟩ hbook
            (by intro b hb; exact absurd hb (by simp [emptyTrace]))
          split
          · exact ⟨fun bk hbk => hloop.2 bk hbk, fun b hb => by simp at hb⟩
          · constructor
            · intro bk hbk
              exact hloop.2 bk hbk
            · intro b hb
              simp only [Except.ok.injEq] at hb
              exact hb ▸ hloop.1

/-- C5: whenever the initial (resume) Book satisfies the data-model
invariant, every Book observable from outside the crawl — every
checkpoint-callback snapshot and the final returned Book, on either
adapter, on both the fetching and toc-only paths — has its chapter list
sorted ascending by index with no two chapters sharing an index. -/
theorem c5_book_invariant :
    (∀ (fetch : String → FetchOutcome) (tocR : Except ScrapeErr (List TocEntry))
        (meta : Option Meta) (url : String) (opts : ScrapeOptions),
        (∀ b₀, opts.initial_book = some b₀ → ChaptersOk b₀.chapters) →
        (∀ bk ∈ (rr_scrape_book fetch tocR meta url opts).2.checkpoints,
            ChaptersOk bk.chapters)
        ∧ (∀ b, (rr_scrape_book fetch tocR meta url opts).1 = .ok b →
            ChaptersOk b.chapters))
    ∧ (∀ (fetch : String → FetchOutcome) (ajax : Option (Except ScrapeErr (List ShEntry)))
        (firstPage : Except ScrapeErr (List ShEntry))
        (pages : List (Except ScrapeErr (List ShEntry)))
        (meta : Option Meta) (url : String) (opts : ScrapeOptions),
        (∀ b₀, opts.initial_book = some b₀ → ChaptersOk b₀.chapters) →
        (∀ bk ∈ (sh_scrape_book fetch ajax firstPage pages meta url opts).2.checkpoints,
            ChaptersOk bk.chapters)
        ∧ (∀ b, (sh_scrape_book fetch ajax firstPage pages meta url opts).1 = .ok b →
            ChaptersOk b.chapters)) :=
  ⟨fun fetch tocR meta url opts h₀ => rr_scrape_ok_shape fetch tocR meta url opts h₀,
   fun fetch ajax firstPage pages meta url opts h₀ =>
     sh_scrape_ok_shape fetch ajax firstPage pages meta url opts h₀⟩

/-- Witness for C5 at a concrete input: a fresh one-chapter Royal Road crawl
returns a sorted, duplicate-free Book. -/
theorem c5_book_invariant_witness :
    ChaptersOk (Book.mk "t" "a" none none [⟨"T", 1, "<p>para</p>"⟩] (some "u")).chapters := by
  have h := (c5_book_invariant.1
    (fun _ => .ok 200 (some ⟨some "T", none, none, some ["para"]⟩))
    (.ok [⟨1, "u1", "t1", true⟩]) (some ⟨"t", "a", none, none⟩) "u"
    ⟨none, none, none, none, false, none⟩ (by intro b₀ hb₀; simp at hb₀)).2
  apply h
  decide

theorem any_index_iff {l : List Chapter} {i : Nat} :
    (l.any (fun c => c.index == i) = true) ↔ i ∈ l.map Chapter.index := by
  rw [List.any_eq_true]
  constructor
  · rintro ⟨c, hc, hci⟩
    exact List.mem_map.mpr ⟨c, hc, by simpa using hci⟩
  · rintro hmem
    obtain ⟨c, hc, hci⟩ := List.mem_map.mp hmem
    exact ⟨c, hc, by simp [hci]⟩

theorem present_eq {book₀ : Book} {k : Nat}
    (hb0 : ∀ c ∈ book₀.chapters, 1 ≤ c.index ∧ c.index ≤ k)
    {cr cf : List Chapter} (hp : List.Perm cr (book₀.chapters ++ cf))
    {i : Nat} (hi : k < i) :
    (cr.any (fun c => c.index == i)) = (cf.any (fun c => c.index == i)) := by
  have hiff : i ∈ cr.map Chapter.index ↔ i ∈ cf.map Chapter.index := by
    have hpm := hp.map Chapter.index
    rw [hpm.mem_iff, List.map_append, List.mem_append]
    constructor
    · rintro (h | h)
      · obtain ⟨c, hc, hci⟩ := List.mem_map.mp h
        have h2 := (hb0 c hc).2
        omega
      · exact h
    · exact Or.inr
  have hiff2 : (cr.any (fun c => c.index == i) = true)
      ↔ (cf.any (fun c => c.index == i) = true) := by
    rw [any_index_iff, any_index_iff]
    exact hiff
  cases har : cr.any (fun c => c.index == i) with
  | true => exact (hiff2.mp har).symm
  | false =>
    cases haf : cf.any (fun c => c.index == i) with
    | true =>
      rw [hiff2.mpr haf] at har
      exact har.symm
    | false => rfl

theorem chapters_eq_of_perm_sorted_nodup :
    ∀ {l₁ l₂ : List Chapter}, List.Perm l₁ l₂ → l₁.Sorted chapterLE →
      l₂.Sorted chapterLE → ((l₁.map Chapter.index).Nodup) → l₁ = l₂ := by
  intro l₁
  induction l₁ with
  | nil =>
    intro l₂ hp _ _ _
    exact (hp.symm.eq_nil).symm
  | cons a t₁ ih =>
    intro l₂ hp hs₁ hs₂ hn
    cases l₂ with
    | nil =>
      exact absurd hp.eq_nil (by simp)
    | cons b t₂ =>
      rw [List.map_cons, List.nodup_cons] at hn
      have hab : a = b := by
        have ha2 : a ∈ b :: t₂ := hp.subset (List.mem_cons_self a t₁)
        have hb1 : b ∈ a :: t₁ := hp.symm.subset (List.mem_cons_self b t₂)
        rcases List.mem_cons.mp ha2 with h | h
        · exact h
        · rcases List.mem_cons.mp hb1 with h2 | h2
          · exact h2.symm
          · exfalso
            have hle1 : chapterLE a b := List.rel_of_sorted_cons hs₁ b h2
            have hle2 : chapterLE b a := List.rel_of_sorted_cons hs₂ a h
            have hidx : b.index = a.index := Nat.le_antisymm hle2 hle1
            exact hn.1 (List.mem_map.mpr ⟨b, h2, hidx⟩)
      subst hab
      have hp' : List.Perm t₁ t₂ := hp.cons_inv
      rw [ih hp' hs₁.of_cons hs₂.of_cons hn.2]

theorem push_pair_perm (book₀ : Book) {cr cf : List Chapter} (c : Chapter)
    (hp : List.Perm cr (book₀.chapters ++ cf)) :
    List.Perm (sortByIndex (cr ++ [c])) (book₀.chapters ++ sortByIndex (cf ++ [c])) := by
  refine (sortByIndex_perm _).trans ?_
  refine (hp.append_right [c]).trans ?_
  rw [List.append_assoc]
  exact List.Perm.append_left _ (sortByIndex_perm _).symm

theorem push_nodup {cr : List Chapter} (c : Chapter) (hn : (cr.map Chapter.index).Nodup)
    (hf : c.index ∉ cr.map Chapter.index) :
    ((sortByIndex (cr ++ [c])).map Chapter.index).Nodup :=
  ((sortByIndex_perm _).map Chapter.index).nodup_iff.mpr (nodup_index_append hn hf)

theorem rr_loop_resume (fetch : String → FetchOutcome) (lb : LockedChapterBehavior)
    (eb : EmptyChapterBehavior) (lc tot : Nat) (book₀ : Book) (k : Nat)
    (hb0 : ∀ c ∈ book₀.chapters, 1 ≤ c.index ∧ c.index ≤ k)
    (hbcov : ∀ i, 1 ≤ i → i ≤ k → i ∈ book₀.chapters.map Chapter.index) :
    ∀ (toc : List TocEntry) (sr sf : LoopState),
      (∀ e ∈ toc, 1 ≤ e.index) →
      List.Perm sr.book.chapters (book₀.chapters ++ sf.book.chapters) →
      sr.book.chapters.Sorted chapterLE →
      sf.book.chapters.Sorted chapterLE →
      (sr.book.chapters.map Chapter.index).Nodup →
      (rr_loop fetch lb eb lc tot toc sr).1
          = (rr_loop fetch lb eb lc tot
              (toc.filter (fun e => decide (k < e.index))) sf).1
      ∧ List.Perm (rr_loop fetch lb eb lc tot toc sr).2.book.chapters
          (book₀.chapters ++ (rr_loop fetch lb eb lc tot
              (toc.filter (fun e => decide (k < e.index))) sf).2.book.chapters)
      ∧ (rr_loop fetch lb eb lc tot toc sr).2.book.chapters.Sorted chapterLE
      ∧ (rr_loop fetch lb eb lc tot
          (toc.filter (fun e => decide (k < e.index))) sf).2.book.chapters.Sorted chapterLE
      ∧ ((rr_loop fetch lb eb lc tot toc sr).2.book.chapters.map Chapter.index).Nodup
      ∧ ∃ Δ, (rr_loop fetch lb eb lc tot toc sr).2.trace.fetched
              = sr.trace.fetched ++ Δ
          ∧ (rr_loop fetch lb eb lc tot
              (toc.filter (fun e => decide (k < e.index))) sf).2.trace.fetched
              = sf.trace.fetched ++ Δ
          ∧ ∀ x ∈ Δ, k < x.1 := by
  intro toc
  induction toc with
  | nil =>
    intro sr sf htoc hp hsr hsf hn
    exact ⟨rfl, hp, hsr, hsf, hn, [], by simp [rr_loop], by simp [rr_loop], by simp⟩
  | cons e rest ih =>
    intro sr sf htoc hp hsr hsf hn
    have htoc' : ∀ x ∈ rest, 1 ≤ x.index :=
      fun x hx => htoc x (List.mem_cons_of_mem e hx)
    have he1 : 1 ≤ e.index := htoc e (List.mem_cons_self e rest)
    rw [List.filter_cons]
    by_cases hk : k < e.index
    · rw [if_pos (by simp [hk])]
      have hpres_eq : (sr.book.chapters.any (fun c => c.index == e.index))
          = (sf.book.chapters.any (fun c => c.index == e.index)) :=
        present_eq hb0 hp hk
      by_cases hpres : sf.book.chapters.any (fun c => c.index == e.index) = true
      · have hanyr : sr.book.chapters.any (fun c => c.index == e.index) = true := by
          rw [hpres_eq]; exact hpres
        have hstepr : rr_loop fetch lb eb lc tot (e :: rest) sr
            = rr_loop fetch lb eb lc tot rest sr := by
          rw [rr_loop]
          rw [if_pos hanyr]
        have hstepf : rr_loop fetch lb eb lc tot
              (e :: rest.filter (fun x => decide (k < x.index))) sf
            = rr_loop fetch lb eb lc tot (rest.filter (fun x => decide (k < x.index))) sf := by
          rw [rr_loop]
          rw [if_pos hpres]
        rw [hstepr, hstepf]
        exact ih sr sf htoc' hp hsr hsf hn
      · have hanyf : sf.book.chapters.any (fun c => c.index == e.index) = false :=
          Bool.eq_false_iff.mpr hpres
        have hanyr : sr.book.chapters.any (fun c => c.index == e.index) = false := by
          rw [hpres_eq]; exact hanyf
        have hfr : e.index ∉ sr.book.chapters.map Chapter.index :=
          index_not_mem_of_any_eq_false (by rw [hanyr]; simp)
        simp only [rr_loop, hanyr, hanyf, Bool.false_eq_true, if_false]
        by_cases hu : e.unlocked = false
        · rw [if_pos hu, if_pos hu]
          cases lb with
          | Skip =>
            exact ih
              ⟨sr.book, sr.done + 1, ⟨sr.trace.fetched, sr.trace.checkpoints,
                sr.trace.progress ++ [(sr.done + 1, tot)]⟩, sr.cancelCalls⟩
              ⟨sf.book, sf.done + 1, ⟨sf.trace.fetched, sf.trace.checkpoints,
                sf.trace.progress ++ [(sf.done + 1, tot)]⟩, sf.cancelCalls⟩
              htoc' hp hsr hsf hn
          | Placeholder =>
            have hp' := push_pair_perm book₀
              (⟨e.title ++ " (locked)", e.index, lockedPlaceholderBody⟩ : Chapter) hp
            have hn' : ((sortByIndex (sr.book.chapters
                ++ [⟨e.title ++ " (locked)", e.index, lockedPlaceholderBody⟩])).map
                  Chapter.index).Nodup := by
              refine push_nodup _ hn ?_
              exact hfr
            exact ih
              ⟨pushSort sr.book ⟨e.title ++ " (locked)", e.index, lockedPlaceholderBody⟩,
                sr.done + 1,
                ⟨sr.trace.fetched, sr.trace.checkpoints
                    ++ [pushSort sr.book ⟨e.title ++ " (locked)", e.index, lockedPlaceholderBody⟩],
                  sr.trace.progress ++ [(sr.done + 1, tot)]⟩, sr.cancelCalls⟩
              ⟨pushSort sf.book ⟨e.title ++ " (locked)", e.index, lockedPlaceholderBody⟩,
                sf.done + 1,
                ⟨sf.trace.fetched, sf.trace.checkpoints
                    ++ [pushSort sf.book ⟨e.title ++ " (locked)", e.index, lockedPlaceholderBody⟩],
                  sf.trace.progress ++ [(sf.done + 1, tot)]⟩, sf.cancelCalls⟩
              htoc' hp' (sortByIndex_sorted _) (sortByIndex_sorted _) hn'
          | Fail =>
            exact ⟨rfl, hp, hsr, hsf, hn, [], by simp, by simp, by simp⟩
        · rw [if_neg hu, if_neg hu]
          rcases handle_fetched_shape rr_parse_chapter_page rr_parse_error_shape eb
              e.index e.url (fetch e.url) with hsk | ⟨c₀, hc₀, hap⟩ | ⟨err, herr, hab⟩
          · simp only [hsk]
            have IH := ih
              ⟨sr.book, sr.done + 1,
                ⟨sr.trace.fetched ++ [(e.index, e.url)], sr.trace.checkpoints,
                  sr.trace.progress ++ [(sr.done + 1, tot)]⟩, sr.cancelCalls⟩
              ⟨sf.book, sf.done + 1,
                ⟨sf.trace.fetched ++ [(e.index, e.url)], sf.trace.checkpoints,
                  sf.trace.progress ++ [(sf.done + 1, tot)]⟩, sf.cancelCalls⟩
              htoc' hp hsr hsf hn
            obtain ⟨h1, h2, h3, h4, h5, Δ, hf1, hf2, hΔ⟩ := IH
            refine ⟨h1, h2, h3, h4, h5, (e.index, e.url) :: Δ, ?_, ?_, ?_⟩
            · exact hf1.trans (by simp)
            · exact hf2.trans (by simp)
            · intro x hx
              rcases List.mem_cons.mp hx with rfl | hx
              · exact hk
              · exact hΔ x hx
          · simp only [hap]
            have hp' := push_pair_perm book₀ c₀ hp
            have hn' : ((sortByIndex (sr.book.chapters ++ [c₀])).map Chapter.index).Nodup := by
              refine push_nodup _ hn ?_
              rw [hc₀]
              exact hfr
            have IH := ih
              ⟨pushSort sr.book c₀, sr.done + 1,
                ⟨sr.trace.fetched ++ [(e.index, e.url)],
                  sr.trace.checkpoints ++ [pushSort sr.book c₀],
                  sr.trace.progress ++ [(sr.done + 1, tot)]⟩, sr.cancelCalls⟩
              ⟨pushSort sf.book c₀, sf.done + 1,
                ⟨sf.trace.fetched ++ [(e.index, e.url)],
                  sf.trace.checkpoints ++ [pushSort sf.book c₀],
                  sf.trace.progress ++ [(sf.done + 1, tot)]⟩, sf.cancelCalls⟩
              htoc' hp' (sortByIndex_sorted _) (sortByIndex_sorted _) hn'
            obtain ⟨h1, h2, h3, h4, h5, Δ, hf1, hf2, hΔ⟩ := IH
            refine ⟨h1, h2, h3, h4, h5, (e.index, e.url) :: Δ, ?_, ?_, ?_⟩
            · exact hf1.trans (by simp)
            · exact hf2.trans (by simp)
            · intro x hx
              rcases List.mem_cons.mp hx with rfl | hx
              · exact hk
              · exact hΔ x hx
          · simp only [hab]
            refine ⟨by trivial, hp, hsr, hsf, hn, [(e.index, e.url)], by simp, by simp, ?_⟩
            intro x hx
            rcases List.mem_cons.mp hx with rfl | hx
            · exact hk
            · simp at hx
    · rw [if_neg (by simp [hk])]
      have hkle : e.index ≤ k := Nat.le_of_not_lt hk
      have hmem0 : e.index ∈ book₀.chapters.map Chapter.index := hbcov e.index he1 hkle
      have hmemr : e.index ∈ sr.book.chapters.map Chapter.index := by
        rw [(hp.map Chapter.index).mem_iff, List.map_append, List.mem_append]
        exact Or.inl hmem0
      have hany : sr.book.chapters.any (fun c => c.index == e.index) = true :=
        any_index_iff.mpr hmemr
      have hstepr : rr_loop fetch lb eb lc tot (e :: rest) sr
          = rr_loop fetch lb eb lc tot rest sr := by
        rw [rr_loop]
        rw [if_pos hany]
      rw [hstepr]
      exact ih sr sf htoc' hp hsr hsf hn

theorem sh_loop_resume (fetch : String → FetchOutcome) (eb : EmptyChapterBehavior)
    (tot : Nat) (cancel : Option (Nat → Bool)) (book₀ : Book) (k : Nat)
    (hb0 : ∀ c ∈ book₀.chapters, 1 ≤ c.index ∧ c.index ≤ k)
    (hbcov : ∀ i, 1 ≤ i → i ≤ k → i ∈ book₀.chapters.map Chapter.index) :
    ∀ (toc : List ShEntry) (sr sf : LoopState),
      (∀ e ∈ toc, 1 ≤ e.index) →
      List.Perm sr.book.chapters (book₀.chapters ++ sf.book.chapters) →
      sr.book.chapters.Sorted chapterLE →
      sf.book.chapters.Sorted chapterLE →
      (sr.book.chapters.map Chapter.index).Nodup →
      sr.cancelCalls = sf.cancelCalls →
      (sh_loop fetch eb tot cancel toc sr).1
          = (sh_loop fetch eb tot cancel
              (toc.filter (fun e => decide (k < e.index))) sf).1
      ∧ List.Perm (sh_loop fetch eb tot cancel toc sr).2.book.chapters
          (book₀.chapters ++ (sh_loop fetch eb tot cancel
              (toc.filter (fun e => decide (k < e.index))) sf).2.book.chapters)
      ∧ (sh_loop fetch eb tot cancel toc sr).2.book.chapters.Sorted chapterLE
      ∧ (sh_loop fetch eb tot cancel
          (toc.filter (fun e => decide (k < e.index))) sf).2.book.chapters.Sorted chapterLE
      ∧ ((sh_loop fetch eb tot cancel toc sr).2.book.chapters.map Chapter.index).Nodup
      ∧ ∃ Δ, (sh_loop fetch eb tot cancel toc sr).2.trace.fetched
              = sr.trace.fetched ++ Δ
          ∧ (sh_loop fetch eb tot cancel
              (toc.filter (fun e => decide (k < e.index))) sf).2.trace.fetched
              = sf.trace.fetched ++ Δ
          ∧ ∀ x ∈ Δ, k < x.1 := by
  intro toc
  induction toc with
  | nil =>
    intro sr sf htoc hp hsr hsf hn hcc
    exact ⟨rfl, hp, hsr, hsf, hn, [], by simp [sh_loop], by simp [sh_loop], by simp⟩
  | cons e rest ih =>
    intro sr sf htoc hp hsr hsf hn hcc
    have htoc' : ∀ x ∈ rest, 1 ≤ x.index :=
      fun x hx => htoc x (List.mem_cons_of_mem e hx)
    have he1 : 1 ≤ e.index := htoc e (List.mem_cons_self e rest)
    rw [List.filter_cons]
    by_cases hk : k < e.index
    · rw [if_pos (by simp [hk])]
      have hpres_eq : (sr.book.chapters.any (fun c => c.index == e.index))
          = (sf.book.chapters.any (fun c => c.index == e.index)) :=
        present_eq hb0 hp hk
      by_cases hpres : sf.book.chapters.any (fun c => c.index == e.index) = true
      · have hanyr : sr.book.chapters.any (fun c => c.index == e.index) = true := by
          rw [hpres_eq]; exact hpres
        have hstepr : sh_loop fetch eb tot cancel (e :: rest) sr
            = sh_loop fetch eb tot cancel rest sr := by
          rw [sh_loop]
          rw [if_pos hanyr]
        have hstepf : sh_loop fetch eb tot cancel
              (e :: rest.filter (fun x => decide (k < x.index))) sf
            = sh_loop fetch eb tot cancel (rest.filter (fun x => decide (k < x.index))) sf := by
          rw [sh_loop]
          rw [if_pos hpres]
        rw [hstepr, hstepf]
        exact ih sr sf htoc' hp hsr hsf hn hcc
      · have hanyf : sf.book.chapters.any (fun c => c.index == e.index) = false :=
          Bool.eq_false_iff.mpr hpres
        have hanyr : sr.book.chapters.any (fun c => c.index == e.index) = false := by
          rw [hpres_eq]; exact hanyf
        have hfr : e.index ∉ sr.book.chapters.map Chapter.index :=
          index_not_mem_of_any_eq_false (by rw [hanyr]; simp)
        simp only [sh_loop, hanyr, hanyf, Bool.false_eq_true, if_false]
        rw [hcc]
        by_cases hcan : ((cancel.map (fun f => f sf.cancelCalls)).getD false) = true
        · rw [if_pos hcan, if_pos hcan]
          exact ⟨rfl, hp, hsr, hsf, hn, [], by simp, by simp, by simp⟩
        · rw [if_neg hcan, if_neg hcan]
          rcases handle_fetched_shape sh_parse_chapter_page sh_parse_error_shape eb
              e.index e.url (fetch e.url) with hsk | ⟨c₀, hc₀, hap⟩ | ⟨err, herr, hab⟩
          · simp only [hsk]
            have IH := ih
              ⟨sr.book, sr.done,
                ⟨sr.trace.fetched ++ [(e.index, e.url)], sr.trace.checkpoints,
                  sr.trace.progress⟩, sf.cancelCalls + 1⟩
              ⟨sf.book, sf.done,
                ⟨sf.trace.fetched ++ [(e.index, e.url)], sf.trace.checkpoints,
                  sf.trace.progress⟩, sf.cancelCalls + 1⟩
              htoc' hp hsr hsf hn rfl
            obtain ⟨h1, h2, h3, h4, h5, Δ, hf1, hf2, hΔ⟩ := IH
            refine ⟨h1, h2, h3, h4, h5, (e.index, e.url) :: Δ, ?_, ?_, ?_⟩
            · exact hf1.trans (by simp)
            · exact hf2.trans (by simp)
            · intro x hx
              rcases List.mem_cons.mp hx with rfl | hx
              · exact hk
              · exact hΔ x hx
          · simp only [hap]
            have hp' := push_pair_perm book₀ c₀ hp
            have hn' : ((sortByIndex (sr.book.chapters ++ [c₀])).map Chapter.index).Nodup := by
              refine push_nodup _ hn ?_
              rw [hc₀]
              exact hfr
            have IH := ih
              ⟨pushSort sr.book c₀, sr.done + 1,
                ⟨sr.trace.fetched ++ [(e.index, e.url)],
                  sr.trace.checkpoints ++ [pushSort sr.book c₀],
                  sr.trace.progress ++ [(sr.done + 1, tot)]⟩, sf.cancelCalls + 1⟩
              ⟨pushSort sf.book c₀, sf.done + 1,
                ⟨sf.trace.fetched ++ [(e.index, e.url)],
                  sf.trace.checkpoints ++ [pushSort sf.book c₀],
                  sf.trace.progress ++ [(sf.done + 1, tot)]⟩, sf.cancelCalls + 1⟩
              htoc' hp' (sortByIndex_sorted _) (sortByIndex_sorted _) hn' rfl
            obtain ⟨h1, h2, h3, h4, h5, Δ, hf1, hf2, hΔ⟩ := IH
            refine ⟨h1, h2, h3, h4, h5, (e.index, e.url) :: Δ, ?_, ?_, ?_⟩
            · exact hf1.trans (by simp)
            · exact hf2.trans (by simp)
            · intro x hx
              rcases List.mem_cons.mp hx with rfl | hx
              · exact hk
              · exact hΔ x hx
          · simp only [hab]
            refine ⟨by trivial, hp, hsr, hsf, hn, [(e.index, e.url)], by simp, by simp, ?_⟩
            intro x hx
            rcases List.mem_cons.mp hx with rfl | hx
            · exact hk
            · simp at hx
    · rw [if_neg (by simp [hk])]
      have hkle : e.index ≤ k := Nat.le_of_not_lt hk
      have hmem0 : e.index ∈ book₀.chapters.map Chapter.index := hbcov e.index he1 hkle
      have hmemr : e.index ∈ sr.book.chapters.map Chapter.index := by
        rw [(hp.map Chapter.index).mem_iff, List.map_append, List.mem_append]
        exact Or.inl hmem0
      have hany : sr.book.chapters.any (fun c => c.index == e.index) = true :=
        any_index_iff.mpr hmemr
      have hstepr : sh_loop fetch eb tot cancel (e :: rest) sr
          = sh_loop fetch eb tot cancel rest sr := by
        rw [sh_loop]
        rw [if_pos hany]
      rw [hstepr]
      exact ih sr sf htoc' hp hsr hsf hn hcc

theorem filter_range_eq_rr {toc : List TocEntry} {k : Nat}
    (h : ∀ e ∈ toc, e.index ≤ toc.length) :
    toc.filter (fun e => k + 1 ≤ e.index && e.index ≤ toc.length)
      = toc.filter (fun e => decide (k < e.index)) := by
  apply List.filter_congr
  intro e he
  have h2 := h e he
  simp [h2, Nat.lt_iff_add_one_le]

theorem filter_range_eq_sh {toc : List ShEntry} {k : Nat}
    (h : ∀ e ∈ toc, e.index ≤ toc.length) :
    toc.filter (fun e => k + 1 ≤ e.index && e.index ≤ toc.length)
      = toc.filter (fun e => decide (k < e.index)) := by
  apply List.filter_congr
  intro e he
  have h2 := h e he
  simp [h2, Nat.lt_iff_add_one_le]

theorem rr_resume_equiv
    (fetch : String → FetchOutcome) (toc : List TocEntry) (m : Meta) (url : String)
    (opts : ScrapeOptions) (book₀ : Book) (k : Nat) (b bf : Book)
    (hcr : opts.chapter_range = none)
    (hto : opts.toc_only = false)
    (hib : opts.initial_book = some book₀)
    (hb0 : ∀ c ∈ book₀.chapters, 1 ≤ c.index ∧ c.index ≤ k)
    (hbcov : ∀ i, 1 ≤ i → i ≤ k → i ∈ book₀.chapters.map Chapter.index)
    (hbs : book₀.chapters.Sorted chapterLE)
    (hbn : (book₀.chapters.map Chapter.index).Nodup)
    (htoc : ∀ e ∈ toc, 1 ≤ e.index ∧ e.index ≤ toc.length)
    (hres : (rr_scrape_book fetch (.ok toc) (some m) url opts).1 = .ok b)
    (hfr : (rr_scrape_book fetch (.ok toc) (some m) url
        ⟨some (k + 1, toc.length), none, opts.locked_behavior,
          opts.empty_chapter_behavior, false, opts.cancel_check⟩).1 = .ok bf) :
    (∀ x ∈ (rr_scrape_book fetch (.ok toc) (some m) url opts).2.fetched, k < x.1)
    ∧ b.chapters = sortByIndex (book₀.chapters ++ bf.chapters) := by
  have hfilter : toc.filter (fun e => k + 1 ≤ e.index && e.index ≤ toc.length)
      = toc.filter (fun e => decide (k < e.index)) :=
    filter_range_eq_rr (fun e he => (htoc e he).2)
  have hmain := rr_loop_resume fetch (opts.locked_behavior.getD .Skip)
    (opts.empty_chapter_behavior.getD .Skip)
    ((toc.filter (fun e => e.unlocked = false)).length) toc.length book₀ k hb0 hbcov
    toc
    ⟨book₀, 0, emptyTrace, 0⟩
    ⟨Book.mk m.title m.author m.description m.cover_url [] (some url), 0, emptyTrace, 0⟩
    (fun e he => (htoc e he).1)
    (by rw [List.append_nil])
    hbs
    List.sorted_nil
    hbn
  obtain ⟨herr, hperm, hsortr, hsortf, hnod, Δ, hfet1, hfet2, hΔ⟩ := hmain
  simp only [rr_scrape_book] at hres hfr ⊢
  by_cases hlockc : (0 < (toc.filter (fun e => e.unlocked = false)).length
      ∧ opts.locked_behavior.getD LockedChapterBehavior.Skip = LockedChapterBehavior.Fail)
  · rw [if_pos hlockc] at hres
    simp at hres
  · rw [if_neg hlockc] at hres hfr ⊢
    simp only [hib, hcr, hto, Bool.false_eq_true, if_false] at hres hfr ⊢
    rw [hfilter] at hfr
    cases hres1 : (rr_loop fetch (opts.locked_behavior.getD LockedChapterBehavior.Skip)
        (opts.empty_chapter_behavior.getD EmptyChapterBehavior.Skip)
        ((toc.filter (fun e => e.unlocked = false)).length) toc.length toc
        ⟨book₀, 0, emptyTrace, 0⟩).1 with
    | some e =>
      rw [hres1] at hres
      simp at hres
    | none =>
      have hfr1 : (rr_loop fetch (opts.locked_behavior.getD LockedChapterBehavior.Skip)
          (opts.empty_chapter_behavior.getD EmptyChapterBehavior.Skip)
          ((toc.filter (fun e => e.unlocked = false)).length) toc.length
          (toc.filter (fun e => decide (k < e.index)))
          ⟨Book.mk m.title m.author m.description m.cover_url [] (some url), 0,
            emptyTrace, 0⟩).1 = none := herr.symm.trans hres1
      simp only [hres1] at hres ⊢
      simp only [hfr1] at hfr
      by_cases hre : ((rr_loop fetch (opts.locked_behavior.getD LockedChapterBehavior.Skip)
          (opts.empty_chapter_behavior.getD EmptyChapterBehavior.Skip)
          ((toc.filter (fun e => e.unlocked = false)).length) toc.length toc
          ⟨book₀, 0, emptyTrace, 0⟩).2.book.chapters.isEmpty) = true
      · rw [if_pos hre] at hres
        simp at hres
      · rw [if_neg hre] at hres ⊢
        have hb : (rr_loop fetch (opts.locked_behavior.getD LockedChapterBehavior.Skip)
            (opts.empty_chapter_behavior.getD EmptyChapterBehavior.Skip)
            ((toc.filter (fun e => e.unlocked = false)).length) toc.length toc
            ⟨book₀, 0, emptyTrace, 0⟩).2.book = b := by
          simpa using hres
        by_cases hfe : ((rr_loop fetch (opts.locked_behavior.getD LockedChapterBehavior.Skip)
            (opts.empty_chapter_behavior.getD EmptyChapterBehavior.Skip)
            ((toc.filter (fun e => e.unlocked = false)).length) toc.length
            (toc.filter (fun e => decide (k < e.index)))
            ⟨Book.mk m.title m.author m.description m.cover_url [] (some url), 0,
              emptyTrace, 0⟩).2.book.chapters.isEmpty) = true
        · rw [if_pos hfe] at hfr
          simp at hfr
        · rw [if_neg hfe] at hfr
          have hbf : (rr_loop fetch (opts.locked_behavior.getD LockedChapterBehavior.Skip)
              (opts.empty_chapter_behavior.getD EmptyChapterBehavior.Skip)
              ((toc.filter (fun e => e.unlocked = false)).length) toc.length
              (toc.filter (fun e => decide (k < e.index)))
              ⟨Book.mk m.title m.author m.description m.cover_url [] (some url), 0,
                emptyTrace, 0⟩).2.book = bf := by
            simpa using hfr
          constructor
          · intro x hx
            simp only [] at hx
            rw [hfet1] at hx
            simp [emptyTrace] at hx
            exact hΔ x hx
          · rw [← hb, ← hbf]
            exact chapters_eq_of_perm_sorted_nodup
              (hperm.trans (sortByIndex_perm _).symm) hsortr (sortByIndex_sorted _) hnod

theorem sh_resume_equiv
    (fetch : String → FetchOutcome) (ajax : Option (Except ScrapeErr (List ShEntry)))
    (firstPage : Except ScrapeErr (List ShEntry))
    (pages : List (Except ScrapeErr (List ShEntry)))
    (toc : List ShEntry) (m : Meta) (url : String)
    (opts : ScrapeOptions) (book₀ : Book) (k : Nat) (b bf : Book)
    (htocr : fetch_full_toc ajax firstPage pages = .ok toc)
    (hcr : opts.chapter_range = none)
    (hto : opts.toc_only = false)
    (hib : opts.initial_book = some book₀)
    (hb0 : ∀ c ∈ book₀.chapters, 1 ≤ c.index ∧ c.index ≤ k)
    (hbcov : ∀ i, 1 ≤ i → i ≤ k → i ∈ book₀.chapters.map Chapter.index)
    (hbs : book₀.chapters.Sorted chapterLE)
    (hbn : (book₀.chapters.map Chapter.index).Nodup)
    (htoc : ∀ e ∈ toc, 1 ≤ e.index ∧ e.index ≤ toc.length)
    (hres : (sh_scrape_book fetch ajax firstPage pages (some m) url opts).1 = .ok b)
    (hfr : (sh_scrape_book fetch ajax firstPage pages (some m) url
        ⟨some (k + 1, toc.length), none, opts.locked_behavior,
          opts.empty_chapter_behavior, false, opts.cancel_check⟩).1 = .ok bf) :
    (∀ x ∈ (sh_scrape_book fetch ajax firstPage pages (some m) url opts).2.fetched, k < x.1)
    ∧ b.chapters = sortByIndex (book₀.chapters ++ bf.chapters) := by
  have hfilter : toc.filter (fun e => k + 1 ≤ e.index && e.index ≤ toc.length)
      = toc.filter (fun e => decide (k < e.index)) :=
    filter_range_eq_sh (fun e he => (htoc e he).2)
  have hmain := sh_loop_resume fetch (opts.empty_chapter_behavior.getD .Skip)
    toc.length opts.cancel_check book₀ k hb0 hbcov
    toc
    ⟨book₀, 0, emptyTrace, 0⟩
    ⟨Book.mk m.title m.author m.description m.cover_url [] (some url), 0, emptyTrace, 0⟩
    (fun e he => (htoc e he).1)
    (by rw [List.append_nil])
    hbs
    List.sorted_nil
    hbn
    rfl
  obtain ⟨herr, hperm, hsortr, hsortf, hnod, Δ, hfet1, hfet2, hΔ⟩ := hmain
  simp only [sh_scrape_book, htocr] at hres hfr ⊢
  simp only [hib, hcr, hto, Bool.false_eq_true, if_false] at hres hfr ⊢
  rw [hfilter] at hfr
  cases hres1 : (sh_loop fetch (opts.empty_chapter_behavior.getD EmptyChapterBehavior.Skip)
      toc.length opts.cancel_check toc ⟨book₀, 0, emptyTrace, 0⟩).1 with
  | some e =>
    rw [hres1] at hres
    simp at hres
  | none =>
    have hfr1 : (sh_loop fetch (opts.empty_chapter_behavior.getD EmptyChapterBehavior.Skip)
        toc.length opts.cancel_check (toc.filter (fun e => decide (k < e.index)))
        ⟨Book.mk m.title m.author m.description m.cover_url [] (some url), 0,
          emptyTrace, 0⟩).1 = none := herr.symm.trans hres1
    simp only [hres1] at hres ⊢
    simp only [hfr1] at hfr
    by_cases hre : ((sh_loop fetch (opts.empty_chapter_behavior.getD EmptyChapterBehavior.Skip)
        toc.length opts.cancel_check toc ⟨book₀, 0, emptyTrace, 0⟩).2.book.chapters.isEmpty)
        = true
    · rw [if_pos hre] at hres
      simp at hres
    · rw [if_neg hre] at hres ⊢
      have hb : (sh_loop fetch (opts.empty_chapter_behavior.getD EmptyChapterBehavior.Skip)
          toc.length opts.cancel_check toc ⟨book₀, 0, emptyTrace, 0⟩).2.book = b := by
        simpa using hres
      by_cases hfe : ((sh_loop fetch
          (opts.empty_chapter_behavior.getD EmptyChapterBehavior.Skip)
          toc.length opts.cancel_check (toc.filter (fun e => decide (k < e.index)))
          ⟨Book.mk m.title m.author m.description m.cover_url [] (some url), 0,
            emptyTrace, 0⟩).2.book.chapters.isEmpty) = true
      · rw [if_pos hfe] at hfr
        simp at hfr
      · rw [if_neg hfe] at hfr
        have hbf : (sh_loop fetch (opts.empty_chapter_behavior.getD EmptyChapterBehavior.Skip)
            toc.length opts.cancel_check (toc.filter (fun e => decide (k < e.index)))
            ⟨Book.mk m.title m.author m.description m.cover_url [] (some url), 0,
              emptyTrace, 0⟩).2.book = bf := by
          simpa using hfr
        constructor
        · intro x hx
          simp only [] at hx
          rw [hfet1] at hx
          simp [emptyTrace] at hx
          exact hΔ x hx
        · rw [← hb, ← hbf]
          exact chapters_eq_of_perm_sorted_nodup
            (hperm.trans (sortByIndex_perm _).symm) hsortr (sortByIndex_sorted _) hnod

/-- C3: for every crawl resumed from a Book that satisfies the data-model
invariant and contains exactly the chapters with indices 1..k, over a TOC
whose indices lie in 1..total (total being the TOC size): no chapter page
whose TOC index is at most k is ever fetched (every fetched index exceeds
k), and the resulting Book's chapter list equals the chapters of a
from-scratch crawl restricted to the range k+1..total merged with the
resumed chapters and re-sorted ascending by index.  Proved for both
adapters; the Scribble Hub cancellation hook is modelled from the spec. -/
theorem c3_resume_equivalence :
    (∀ (fetch : String → FetchOutcome) (toc : List TocEntry) (m : Meta) (url : String)
        (opts : ScrapeOptions) (book₀ : Book) (k : Nat) (b bf : Book),
        opts.chapter_range = none →
        opts.toc_only = false →
        opts.initial_book = some book₀ →
        (∀ c ∈ book₀.chapters, 1 ≤ c.index ∧ c.index ≤ k) →
        (∀ i, 1 ≤ i → i ≤ k → i ∈ book₀.chapters.map Chapter.index) →
        book₀.chapters.Sorted chapterLE →
        (book₀.chapters.map Chapter.index).Nodup →
        (∀ e ∈ toc, 1 ≤ e.index ∧ e.index ≤ toc.length) →
        (rr_scrape_book fetch (.ok toc) (some m) url opts).1 = .ok b →
        (rr_scrape_book fetch (.ok toc) (some m) url
            ⟨some (k + 1, toc.length), none, opts.locked_behavior,
              opts.empty_chapter_behavior, false, opts.cancel_check⟩).1 = .ok bf →
        (∀ x ∈ (rr_scrape_book fetch (.ok toc) (some m) url opts).2.fetched, k < x.1)
        ∧ b.chapters = sortByIndex (book₀.chapters ++ bf.chapters))
    ∧ (∀ (fetch : String → FetchOutcome) (ajax : Option (Except ScrapeErr (List ShEntry)))
        (firstPage : Except ScrapeErr (List ShEntry))
        (pages : List (Except ScrapeErr (List ShEntry)))
        (toc : List ShEntry) (m : Meta) (url : String)
        (opts : ScrapeOptions) (book₀ : Book) (k : Nat) (b bf : Book),
        fetch_full_toc ajax firstPage pages = .ok toc →
        opts.chapter_range = none →
        opts.toc_only = false →
        opts.initial_book = some book₀ →
        (∀ c ∈ book₀.chapters, 1 ≤ c.index ∧ c.index ≤ k) →
        (∀ i, 1 ≤ i → i ≤ k → i ∈ book₀.chapters.map Chapter.index) →
        book₀.chapters.Sorted chapterLE →
        (book₀.chapters.map Chapter.index).Nodup →
        (∀ e ∈ toc, 1 ≤ e.index ∧ e.index ≤ toc.length) →
        (sh_scrape_book fetch ajax firstPage pages (some m) url opts).1 = .ok b →
        (sh_scrape_book fetch ajax firstPage pages (some m) url
            ⟨some (k + 1, toc.length), none, opts.locked_behavior,
              opts.empty_chapter_behavior, false, opts.cancel_check⟩).1 = .ok bf →
        (∀ x ∈ (sh_scrape_book fetch ajax firstPage pages (some m) url opts).2.fetched,
            k < x.1)
        ∧ b.chapters = sortByIndex (book₀.chapters ++ bf.chapters)) :=
  ⟨fun fetch toc m url opts book₀ k b bf hcr hto hib hb0 hbcov hbs hbn htoc hres hfr =>
      rr_resume_equiv fetch toc m url opts book₀ k b bf
        hcr hto hib hb0 hbcov hbs hbn htoc hres hfr,
   fun fetch ajax firstPage pages toc m url opts book₀ k b bf
        htocr hcr hto hib hb0 hbcov hbs hbn htoc hres hfr =>
      sh_resume_equiv fetch ajax firstPage pages toc m url opts book₀ k b bf
        htocr hcr hto hib hb0 hbcov hbs hbn htoc hres hfr⟩

/-- Witness for C3 at a concrete input: resuming a two-chapter Royal Road
TOC with chapter 1 already present yields exactly the resumed chapter
merged with the from-scratch crawl of chapter 2, re-sorted. -/
theorem c3_resume_equivalence_witness :
    (Book.mk "B" "A" none none
        [⟨"c1", 1, "x"⟩, ⟨"T2", 2, "<p>p</p>"⟩] none).chapters
      = sortByIndex ((Book.mk "B" "A" none none [⟨"c1", 1, "x"⟩] none).chapters
          ++ (Book.mk "t" "a" none none [⟨"T2", 2, "<p>p</p>"⟩] (some "u")).chapters) :=
  (c3_resume_equivalence.1
    (fun _ => .ok 200 (some ⟨some "T2", none, none, some ["p"]⟩))
    [⟨1, "u1", "t1", true⟩, ⟨2, "u2", "t2", true⟩]
    ⟨"t", "a", none, none⟩ "u"
    ⟨none, some (Book.mk "B" "A" none none [⟨"c1", 1, "x"⟩] none), none, none, false, none⟩
    (Book.mk "B" "A" none none [⟨"c1", 1, "x"⟩] none) 1
    (Book.mk "B" "A" none none [⟨"c1", 1, "x"⟩, ⟨"T2", 2, "<p>p</p>"⟩] none)
    (Book.mk "t" "a" none none [⟨"T2", 2, "<p>p</p>"⟩] (some "u"))
    rfl rfl rfl (by decide) (by decide) (by decide) (by decide) (by decide)
    (by decide) (by decide)).2
